import Mathlib

/-!
Verification of the clustering core of `src/app.py` (news-article topic
modelling): the iterative cosine-distance partitioner `perform_clustering`
and the silhouette-based model selector `find_optimal_clusters`.

Feature vectors are embedded as lists of rationals (the Python code works on
dense numpy float arrays; we use exact rational arithmetic as the idealised
semantics).  Cosine distances are real numbers (they involve square roots);
the algorithm itself only ever compares cosine distances, and those
comparisons are decided exactly on rationals by a square-root-free test
(`simGtB`), proved equivalent to the real-number comparison
(`simGtB_iff_lt`).  All algorithmic definitions are therefore computable.
-/

namespace TopicModel

/-- Feature vector: one matrix row, a dense list of rationals. -/
abbrev Vec : Type := List ℚ

/-- Feature matrix: the list of document rows. -/
abbrev Matrix : Type := List Vec

/-- Dot product of two vectors (componentwise product, summed; numpy `x @ y`). -/
def dot : Vec → Vec → ℚ
  | [], _ => 0
  | _, [] => 0
  | a :: as, b :: bs => a * b + dot as bs

/-- Squared Euclidean norm of a vector. -/
def sqNorm (v : Vec) : ℚ := dot v v

/-- Euclidean norm as a real number. -/
noncomputable def normR (v : Vec) : ℝ := Real.sqrt ((sqNorm v : ℚ) : ℝ)

/-- Cosine similarity of two vectors, as a real number.  With Lean's
division-by-zero convention a zero vector has similarity 0 to everything,
which matches the zero-norm convention of sklearn's cosine machinery. -/
noncomputable def cosSimR (x y : Vec) : ℝ := ((dot x y : ℚ) : ℝ) / (normR x * normR y)

/-- Cosine distance, `1 - cosine similarity` (sklearn `cosine_distances`). -/
noncomputable def cosDistR (x y : Vec) : ℝ := 1 - cosSimR x y

/-- Exact decision procedure for `cosSimR x c > cosSimR x d`, using only
rational arithmetic (signs and squares stand in for the square roots in the
norms).  This is how the embedded algorithm performs the distance
comparisons of `np.argmin(cosine_distances(X, centroids), axis=1)`. -/
def simGtB (x c d : Vec) : Bool :=
  let a := dot x c
  let b := dot x d
  let p := sqNorm c
  let q := sqNorm d
  if sqNorm x = 0 then false
  else if p = 0 then
    if q = 0 then false else b < 0
  else if q = 0 then 0 < a
  else if 0 ≤ b then
    if 0 < a then b * b * p < a * a * q else false
  else
    if 0 ≤ a then true else a * a * q < b * b * p

/-!
The assignment step.  `np.argmin(cosine_distances(X, initial_centroids),
axis=1)` gives, for each row, the index of the first centroid attaining the
minimal cosine distance (`np.argmin` returns the first occurrence of the
minimum).  The fold below keeps the incumbent index and displaces it only on
a strictly smaller distance, which reproduces that first-minimum rule.
-/
def argminAux (x : Vec) : List Vec → ℕ → Vec → ℕ → ℕ
  | [], _, _, best => best
  | c :: rest, i, bestV, best =>
    if simGtB x c bestV then argminAux x rest (i + 1) c i
    else argminAux x rest (i + 1) bestV best

/-- Index of the centroid at minimal cosine distance from row `x`, first
index on ties.  A junk value 0 is returned for an empty centroid list (numpy
raises there; callers exclude that case). -/
def argminDist (x : Vec) : List Vec → ℕ
  | [] => 0
  | c :: rest => argminAux x rest 1 c 0

/-- One assignment pass: `labels = np.argmin(cosine_distances(X, cs), axis=1)`. -/
def assignAll (X : Matrix) (cs : List Vec) : List ℕ :=
  X.map fun x => argminDist x cs

/-- Componentwise sum of two vectors (numpy broadcasting addition). -/
def addVec (v w : Vec) : Vec := List.zipWith (· + ·) v w

def sumVecs : List Vec → Vec
  | [] => []
  | [v] => v
  | v :: vs => addVec v (sumVecs vs)

/-- Arithmetic mean of a list of vectors, `X[labels == j].mean(axis=0)`.
For an empty list numpy emits a row of NaNs (mean of an empty slice); under
exact rational semantics with division by zero equal to zero this is
modelled as the empty vector, the placeholder for that undefined value. -/
def meanVec (vs : List Vec) : Vec :=
  (sumVecs vs).map fun a => a / (vs.length : ℚ)

/-- Row selection `X[labels == j]`, in row order. -/
def rowsWithLabel (X : Matrix) (labels : List ℕ) (j : ℕ) : List Vec :=
  (X.zip labels).filterMap fun p => if p.2 = j then some p.1 else none

/-- Centroid update: `np.array([X[labels == j].mean(axis=0) for j in range(k)])`. -/
def newCentroids (X : Matrix) (labels : List ℕ) (k : ℕ) : List Vec :=
  (List.range k).map fun j => meanVec (rowsWithLabel X labels j)

/-!
The pseudo-random generator.  Modelled from the spec: `np.random.seed(42)`
followed by `np.random.choice(n, k, replace=False)` is numpy library code,
not part of this repository; the spec requires only that initialisation
"samples k distinct rows of the matrix without replacement, using the seeded
generator" and that this is "deterministic given the seed".  It is modelled
as a linear-congruential draw-without-replacement sampler with exactly those
properties.  `np.random.choice` raises ValueError when k exceeds the
population size, hence the `Option`.
-/
def RngState : Type := ℕ

/-- Modelled from the spec: `np.random.seed` replaces the global generator
state with one derived from the seed alone. -/
def npseed (n : ℕ) : RngState := n

def lcg (g : ℕ) : ℕ := (1103515245 * g + 12345) % 2147483648

/-- Draw `fuel` elements from `pool` without replacement, LCG-driven. -/
def drawSample (g : ℕ) (pool : List ℕ) : ℕ → List ℕ
  | 0 => []
  | fuel + 1 =>
    match pool with
    | [] => []
    | _ :: _ =>
      let j := g % pool.length
      pool.getD j 0 :: drawSample (lcg g) (pool.eraseIdx j) fuel

/-- Modelled from the spec: `np.random.choice(n, k, replace=False)` — `k`
distinct indices below `n`, deterministic in the generator state; fails
(ValueError) when `k > n`. -/
def randomChoice (g : RngState) (n k : ℕ) : Option (List ℕ) :=
  if k ≤ n then some (drawSample (lcg g) (List.range n) k) else none

/-- Initial centroid list `X[idxs]`. -/
def centroidsOf (X : Matrix) (idxs : List ℕ) : List Vec :=
  idxs.map fun i => X.getD i []

/-!
The refinement loop of `perform_clustering` (src/app.py lines 76-82): up to
100 iterations of assign/recompute, stopping early when
`np.all(initial_centroids == new_centroids)`; the labels from the last
executed iteration are returned.  `find_optimal_clusters` (lines 61-67)
contains a textually duplicated copy of the same loop; both are embedded
separately and proved to agree (claim C10).
-/
def pcLoop (X : Matrix) (k : ℕ) : ℕ → List Vec → List ℕ
  | 0, _ => []
  | fuel + 1, cs =>
    let labels := assignAll X cs
    let newcs := newCentroids X labels k
    if newcs = cs then labels
    else
      match fuel with
      | 0 => labels
      | _ + 1 => pcLoop X k fuel newcs

/-- Embedding of `perform_clustering(X, best_k)` (src/app.py lines 73-83).
The incoming global generator state `gIn` is immediately overwritten by
`np.random.seed(42)`, which is why the function is deterministic.  Returns
`none` where the Python raises (sampling failure, or `k = 0` which makes
`np.argmin` reduce over an empty axis). -/
def perform_clustering (gIn : RngState) (X : Matrix) (best_k : ℕ) : Option (List ℕ) :=
  let _ := gIn
  let g0 := npseed 42
  match randomChoice g0 X.length best_k with
  | none => none
  | some idxs =>
    match centroidsOf X idxs with
    | [] => none
    | c :: cs => some (pcLoop X best_k 100 (c :: cs))

/-- The inner refinement loop of `find_optimal_clusters` (src/app.py lines
61-67), a textual duplicate of the loop in `perform_clustering`. -/
def focLoop (X : Matrix) (k : ℕ) : ℕ → List Vec → List ℕ
  | 0, _ => []
  | fuel + 1, cs =>
    let labels := assignAll X cs
    let newcs := newCentroids X labels k
    if newcs = cs then labels
    else
      match fuel with
      | 0 => labels
      | _ + 1 => focLoop X k fuel newcs

/-- The labeling that `find_optimal_clusters` computes and scores for one
candidate `k` (src/app.py lines 59-67). -/
def focLabels (gIn : RngState) (X : Matrix) (k : ℕ) : Option (List ℕ) :=
  let _ := gIn
  let g0 := npseed 42
  match randomChoice g0 X.length k with
  | none => none
  | some idxs =>
    match centroidsOf X idxs with
    | [] => none
    | c :: cs => some (focLoop X k 100 (c :: cs))

/-!
Iteration trace of the loop, used to state per-iteration properties: the
centroid sequence, and the number of loop bodies actually executed.
-/
/-- One loop body acting on the centroids. -/
def stepCentroids (X : Matrix) (k : ℕ) (cs : List Vec) : List Vec :=
  newCentroids X (assignAll X cs) k

/-- Centroids at the start of iteration `t` (0-indexed), were the loop run
without the early-stop check. -/
def centroidsSeq (X : Matrix) (k : ℕ) (cs0 : List Vec) : ℕ → List Vec
  | 0 => cs0
  | t + 1 => stepCentroids X k (centroidsSeq X k cs0 t)

/-- Number of loop bodies executed by `pcLoop` with the given fuel. -/
def itersUsed (X : Matrix) (k : ℕ) : ℕ → List Vec → ℕ
  | 0, _ => 0
  | fuel + 1, cs =>
    let newcs := newCentroids X (assignAll X cs) k
    if newcs = cs then 1
    else
      match fuel with
      | 0 => 1
      | _ + 1 => 1 + itersUsed X k fuel newcs

/-!
The per-iteration objective of the spec's monotonic-stabilization property:
the sum over all rows of the squared cosine distance from the row to the
centroid of its assigned cluster.
-/
noncomputable def sqDistSum (X : Matrix) (labels : List ℕ) (cs : List Vec) : ℝ :=
  ∑ i ∈ Finset.range X.length,
    (cosDistR (X.getD i []) (cs.getD (labels.getD i 0) [])) ^ 2

/-!
Silhouette scoring.  Modelled from the spec: `silhouette_score(X, labels,
metric='cosine')` is sklearn library code, not part of this repository.
The spec (§4.2) defines it: a(i) is the mean cosine distance from row i to
all other rows in its own cluster, b(i) the minimum over other clusters of
the mean cosine distance from i to that cluster's rows, Silhouette(i) is
(b(i) - a(i)) / max(a(i), b(i)), defined as 0 when the row's cluster has
only one member, and the partition's score is the mean over all rows.
sklearn raises ValueError unless the number of distinct labels lies in
[2, n_samples - 1]; that failure is the `none` case.
-/
def clusterIdxs (labels : List ℕ) (j : ℕ) : List ℕ :=
  (List.range labels.length).filter fun i => labels.getD i 0 == j

noncomputable def meanDistTo (X : Matrix) (i : ℕ) (idxs : List ℕ) : ℝ :=
  (idxs.map fun t => cosDistR (X.getD i []) (X.getD t [])).sum / (idxs.length : ℝ)

noncomputable def aVal (X : Matrix) (labels : List ℕ) (i : ℕ) : ℝ :=
  meanDistTo X i ((clusterIdxs labels (labels.getD i 0)).filter fun t => t != i)

noncomputable def minListR : List ℝ → ℝ
  | [] => 0
  | v :: rest => rest.foldl min v

noncomputable def bVal (X : Matrix) (labels : List ℕ) (i : ℕ) : ℝ :=
  minListR ((labels.dedup.filter fun j => j != labels.getD i 0).map
    fun j => meanDistTo X i (clusterIdxs labels j))

noncomputable def silSample (X : Matrix) (labels : List ℕ) (i : ℕ) : ℝ :=
  if (clusterIdxs labels (labels.getD i 0)).length = 1 then 0
  else (bVal X labels i - aVal X labels i) / max (aVal X labels i) (bVal X labels i)

noncomputable def silScoreR (X : Matrix) (labels : List ℕ) : ℝ :=
  ((List.range labels.length).map (silSample X labels)).sum / (labels.length : ℝ)

noncomputable def silhouetteOpt (X : Matrix) (labels : List ℕ) : Option ℝ :=
  if 2 ≤ labels.dedup.length ∧ labels.dedup.length ≤ labels.length - 1 then
    some (silScoreR X labels)
  else none

/-!
Model selection (src/app.py lines 55-70): `K = range(2, 11)`; for each k the
inner loop produces a labeling, `silhouette_score` is appended, and
`best_k = K[np.argmax(sil_scores)]`.  `np.argmax` returns the first index
attaining the maximum, so ties go to the smallest k.
-/
open Classical in
/-- First-maximum fold mirroring `np.argmax` over the score list. -/
noncomputable def argmaxAux : List ℝ → ℝ → ℕ → ℕ → ℕ
  | [], _, _, best => best
  | v :: rest, bestV, i, best =>
    if bestV < v then argmaxAux rest v (i + 1) i
    else argmaxAux rest bestV (i + 1) best

noncomputable def argmaxIdx : List ℝ → ℕ
  | [] => 0
  | v :: rest => argmaxAux rest v 1 0

/-- The `sil_scores` list: one silhouette score per candidate k, failing as
the Python does if any trial fails. -/
noncomputable def focScoresAux (gIn : RngState) (X : Matrix) : List ℕ → Option (List ℝ)
  | [] => some []
  | k :: ks =>
    match focLabels gIn X k with
    | none => none
    | some labels =>
      match silhouetteOpt X labels with
      | none => none
      | some s =>
        match focScoresAux gIn X ks with
        | none => none
        | some rest => some (s :: rest)

noncomputable def focScores (gIn : RngState) (X : Matrix) : Option (List ℝ) :=
  focScoresAux gIn X (List.range' 2 9)

/-- Embedding of `find_optimal_clusters(X)` (src/app.py lines 55-70):
`best_k = K[np.argmax(sil_scores)]` with `K = range(2, 11)`. -/
noncomputable def find_optimal_clusters (gIn : RngState) (X : Matrix) : Option ℕ :=
  match focScores gIn X with
  | none => none
  | some ss => some (2 + argmaxIdx ss)

/-!
Concrete inputs used to settle the claims.  `Xortho`: eleven pairwise
orthogonal rows, on which every silhouette score is 0 and the selector's
behaviour can be traced end to end.  `Xmono`: four rows on which the
objective of the monotonic-stabilization property strictly increases
between the first two iterations.  `Xdegen`: contains an all-zero row.
`Xk1`: a plain matrix used with the out-of-contract cluster count k = 1.
`Xcollinear`: two collinear rows that are both picked as initial centroids,
leaving the second cluster empty after the first assignment.
-/
def Xortho : Matrix :=
  [[1,0,0,0,0,0,0,0,0,0,0],
   [0,1,0,0,0,0,0,0,0,0,0],
   [0,0,1,0,0,0,0,0,0,0,0],
   [0,0,0,1,0,0,0,0,0,0,0],
   [0,0,0,0,1,0,0,0,0,0,0],
   [0,0,0,0,0,1,0,0,0,0,0],
   [0,0,0,0,0,0,1,0,0,0,0],
   [0,0,0,0,0,0,0,1,0,0,0],
   [0,0,0,0,0,0,0,0,1,0,0],
   [0,0,0,0,0,0,0,0,0,1,0],
   [0,0,0,0,0,0,0,0,0,0,1]]

def Xmono : Matrix := [[24, 0], [0, 7/2], [0, -1], [0, 7/2]]

def Xdegen : Matrix := [[0, 0], [1, 0], [0, 1]]

def Xk1 : Matrix := [[1, 0], [0, 1], [1, 1]]

def Xcollinear : Matrix := [[1, 0], [2, 0], [0, 1]]

theorem dot_nil_right : ∀ v : Vec, dot v [] = 0 := by
  intro v; cases v <;> rfl

/-- Dot product as a finite sum over the common index range. -/
theorem dot_eq_sum (v w : Vec) :
    dot v w = ∑ i ∈ Finset.range (min v.length w.length),
      v.getD i 0 * w.getD i 0 := by
  induction v generalizing w with
  | nil => simp [dot]
  | cons a as ih =>
    cases w with
    | nil => simp [dot_nil_right]
    | cons b bs =>
      have hmin : min (a :: as).length (b :: bs).length
          = Nat.succ (min as.length bs.length) := by
        simp [List.length_cons, Nat.succ_min_succ]
      rw [dot, hmin, Finset.sum_range_succ', ih]
      simp only [List.getD_cons_succ, List.getD_cons_zero, List.length_cons]
      ring

theorem sqNorm_eq_sum (v : Vec) :
    sqNorm v = ∑ i ∈ Finset.range v.length, v.getD i 0 ^ 2 := by
  have h := dot_eq_sum v v
  simp only [sqNorm, h, min_self, sq]

theorem sqNorm_nonneg (v : Vec) : 0 ≤ sqNorm v := by
  rw [sqNorm_eq_sum]
  exact Finset.sum_nonneg fun i _ => sq_nonneg _

/-- Cauchy–Schwarz for the list dot product. -/
theorem dot_sq_le_sqNorm_mul_sqNorm (v w : Vec) :
    (dot v w) ^ 2 ≤ sqNorm v * sqNorm w := by
  set n := min v.length w.length with hn
  have hv : ∑ i ∈ Finset.range n, v.getD i 0 ^ 2 ≤ sqNorm v := by
    rw [sqNorm_eq_sum]
    refine Finset.sum_le_sum_of_subset_of_nonneg ?_ ?_
    · exact Finset.range_subset.2 (by omega)
    · intro i _ _; exact sq_nonneg _
  have hw : ∑ i ∈ Finset.range n, w.getD i 0 ^ 2 ≤ sqNorm w := by
    rw [sqNorm_eq_sum]
    refine Finset.sum_le_sum_of_subset_of_nonneg ?_ ?_
    · exact Finset.range_subset.2 (by omega)
    · intro i _ _; exact sq_nonneg _
  have hcs := Finset.sum_mul_sq_le_sq_mul_sq (Finset.range n)
    (fun i => v.getD i 0) (fun i => w.getD i 0)
  calc (dot v w) ^ 2
      = (∑ i ∈ Finset.range n, v.getD i 0 * w.getD i 0) ^ 2 := by rw [dot_eq_sum v w, hn]
    _ ≤ (∑ i ∈ Finset.range n, v.getD i 0 ^ 2) * ∑ i ∈ Finset.range n, w.getD i 0 ^ 2 := hcs
    _ ≤ sqNorm v * sqNorm w := by
        apply mul_le_mul hv hw
        · exact Finset.sum_nonneg fun i _ => sq_nonneg _
        · exact le_trans (Finset.sum_nonneg fun (i : ℕ) _ => sq_nonneg (v.getD i 0)) hv

theorem normR_nonneg (v : Vec) : 0 ≤ normR v := Real.sqrt_nonneg _

theorem normR_sq (v : Vec) : normR v ^ 2 = ((sqNorm v : ℚ) : ℝ) := by
  rw [normR, Real.sq_sqrt]
  exact_mod_cast sqNorm_nonneg v

theorem normR_pos {v : Vec} (h : 0 < sqNorm v) : 0 < normR v := by
  apply Real.sqrt_pos.2
  exact_mod_cast h

theorem normR_eq_zero {v : Vec} (h : sqNorm v = 0) : normR v = 0 := by
  rw [normR, h]
  simp

/-- Cosine similarity is at most 1 (Cauchy–Schwarz). -/
theorem cosSimR_le_one (x y : Vec) : cosSimR x y ≤ 1 := by
  rcases eq_or_lt_of_le (sqNorm_nonneg x) with hx | hx
  · simp [cosSimR, normR_eq_zero hx.symm]
  rcases eq_or_lt_of_le (sqNorm_nonneg y) with hy | hy
  · simp [cosSimR, normR_eq_zero hy.symm]
  have hnx := normR_pos hx
  have hny := normR_pos hy
  rw [cosSimR, div_le_one (by positivity)]
  have hsq : (((dot x y : ℚ) : ℝ)) ^ 2 ≤ (normR x * normR y) ^ 2 := by
    rw [mul_pow, normR_sq, normR_sq]
    have := dot_sq_le_sqNorm_mul_sqNorm x y
    exact_mod_cast this
  nlinarith [mul_pos hnx hny]

/-- Cosine similarity is at least -1. -/
theorem neg_one_le_cosSimR (x y : Vec) : -1 ≤ cosSimR x y := by
  rcases eq_or_lt_of_le (sqNorm_nonneg x) with hx | hx
  · simp [cosSimR, normR_eq_zero hx.symm]
  rcases eq_or_lt_of_le (sqNorm_nonneg y) with hy | hy
  · simp [cosSimR, normR_eq_zero hy.symm]
  have hnx := normR_pos hx
  have hny := normR_pos hy
  rw [cosSimR, le_div_iff (by positivity)]
  have hsq : (((dot x y : ℚ) : ℝ)) ^ 2 ≤ (normR x * normR y) ^ 2 := by
    rw [mul_pow, normR_sq, normR_sq]
    have := dot_sq_le_sqNorm_mul_sqNorm x y
    exact_mod_cast this
  nlinarith [mul_pos hnx hny]

theorem cosDistR_nonneg (x y : Vec) : 0 ≤ cosDistR x y := by
  have := cosSimR_le_one x y
  rw [cosDistR]; linarith

theorem lt_of_mul_self_lt_mul_self {x y : ℝ} (hx : 0 ≤ x) (hy : 0 ≤ y)
    (h : x * x < y * y) : x < y := by
  nlinarith

theorem mul_self_lt_mul_self_of_lt {x y : ℝ} (hx : 0 ≤ x) (h : x < y) : x * x < y * y := by
  nlinarith

/-- Correctness of the rational comparison: `simGtB x c d` holds exactly when
the real cosine similarity of `x` and `c` strictly exceeds that of `x` and
`d` (equivalently, the cosine distance to `c` is strictly smaller). -/
theorem simGtB_iff_lt (x c d : Vec) :
    simGtB x c d = true ↔ cosSimR x d < cosSimR x c := by
  unfold simGtB cosSimR
  by_cases hs0 : sqNorm x = 0
  · have h0 : normR x = 0 := normR_eq_zero hs0
    simp [hs0, h0]
  · rw [if_neg hs0]
    have hspos : 0 < sqNorm x := lt_of_le_of_ne (sqNorm_nonneg x) (Ne.symm hs0)
    have hS : 0 < normR x := normR_pos hspos
    have hPsq : normR c * normR c = ((sqNorm c : ℚ) : ℝ) := by
      have h := normR_sq c; rw [sq] at h; exact h
    have hQsq : normR d * normR d = ((sqNorm d : ℚ) : ℝ) := by
      have h := normR_sq d; rw [sq] at h; exact h
    by_cases hp0 : sqNorm c = 0
    · have hPc : normR c = 0 := normR_eq_zero hp0
      rw [if_pos hp0]
      by_cases hq0 : sqNorm d = 0
      · have hPd : normR d = 0 := normR_eq_zero hq0
        simp [hq0, hPc, hPd]
      · have hqpos : 0 < sqNorm d := lt_of_le_of_ne (sqNorm_nonneg d) (Ne.symm hq0)
        have hQ : 0 < normR d := normR_pos hqpos
        have hden : 0 < normR x * normR d := mul_pos hS hQ
        rw [if_neg hq0]
        simp only [hPc, mul_zero, div_zero, decide_eq_true_eq]
        constructor
        · intro hb
          apply div_neg_of_neg_of_pos _ hden
          exact_mod_cast hb
        · intro hlt
          by_contra hb
          push_neg at hb
          have hbR : (0:ℝ) ≤ ((dot x d : ℚ) : ℝ) := by exact_mod_cast hb
          exact absurd hlt (not_lt.2 (div_nonneg hbR (le_of_lt hden)))
    · have hppos : 0 < sqNorm c := lt_of_le_of_ne (sqNorm_nonneg c) (Ne.symm hp0)
      have hP : 0 < normR c := normR_pos hppos
      rw [if_neg hp0]
      by_cases hq0 : sqNorm d = 0
      · have hPd : normR d = 0 := normR_eq_zero hq0
        have hden : 0 < normR x * normR c := mul_pos hS hP
        rw [if_pos hq0]
        simp only [hPd, mul_zero, div_zero, decide_eq_true_eq]
        constructor
        · intro ha
          apply div_pos _ hden
          exact_mod_cast ha
        · intro hlt
          by_contra ha
          push_neg at ha
          have haR : ((dot x c : ℚ) : ℝ) ≤ 0 := by exact_mod_cast ha
          exact absurd hlt (not_lt.2 (div_nonpos_of_nonpos_of_nonneg haR (le_of_lt hden)))
      · have hqpos : 0 < sqNorm d := lt_of_le_of_ne (sqNorm_nonneg d) (Ne.symm hq0)
        have hQ : 0 < normR d := normR_pos hqpos
        have hdc : 0 < normR x * normR c := mul_pos hS hP
        have hdd : 0 < normR x * normR d := mul_pos hS hQ
        rw [if_neg hq0]
        have key : (((dot x d : ℚ) : ℝ) / (normR x * normR d)
              < ((dot x c : ℚ) : ℝ) / (normR x * normR c))
            ↔ ((dot x d : ℚ) : ℝ) * normR c < ((dot x c : ℚ) : ℝ) * normR d := by
          rw [div_lt_div_iff hdd hdc,
            show ((dot x d : ℚ) : ℝ) * (normR x * normR c)
              = normR x * (((dot x d : ℚ) : ℝ) * normR c) by ring,
            show ((dot x c : ℚ) : ℝ) * (normR x * normR d)
              = normR x * (((dot x c : ℚ) : ℝ) * normR d) by ring,
            mul_lt_mul_left hS]
        rw [key]
        by_cases hbn : 0 ≤ dot x d
        · have hbR : (0:ℝ) ≤ ((dot x d : ℚ) : ℝ) := by exact_mod_cast hbn
          rw [if_pos hbn]
          by_cases han : 0 < dot x c
          · have haR : (0:ℝ) < ((dot x c : ℚ) : ℝ) := by exact_mod_cast han
            rw [if_pos han]
            simp only [decide_eq_true_eq]
            constructor
            · intro hrat
              have hR : ((dot x d : ℚ) : ℝ) * ((dot x d : ℚ) : ℝ) * ((sqNorm c : ℚ) : ℝ)
                  < ((dot x c : ℚ) : ℝ) * ((dot x c : ℚ) : ℝ) * ((sqNorm d : ℚ) : ℝ) := by
                exact_mod_cast hrat
              apply lt_of_mul_self_lt_mul_self (mul_nonneg hbR (le_of_lt hP))
                (mul_nonneg (le_of_lt haR) (normR_nonneg d))
              calc ((dot x d : ℚ) : ℝ) * normR c * (((dot x d : ℚ) : ℝ) * normR c)
                  = ((dot x d : ℚ) : ℝ) * ((dot x d : ℚ) : ℝ) * (normR c * normR c) := by ring
                _ = ((dot x d : ℚ) : ℝ) * ((dot x d : ℚ) : ℝ) * ((sqNorm c : ℚ) : ℝ) := by
                    rw [hPsq]
                _ < ((dot x c : ℚ) : ℝ) * ((dot x c : ℚ) : ℝ) * ((sqNorm d : ℚ) : ℝ) := hR
                _ = ((dot x c : ℚ) : ℝ) * ((dot x c : ℚ) : ℝ) * (normR d * normR d) := by
                    rw [hQsq]
                _ = ((dot x c : ℚ) : ℝ) * normR d * (((dot x c : ℚ) : ℝ) * normR d) := by ring
            · intro hlt
              have hsq := mul_self_lt_mul_self_of_lt (mul_nonneg hbR (le_of_lt hP)) hlt
              have hR : ((dot x d : ℚ) : ℝ) * ((dot x d : ℚ) : ℝ) * ((sqNorm c : ℚ) : ℝ)
                  < ((dot x c : ℚ) : ℝ) * ((dot x c : ℚ) : ℝ) * ((sqNorm d : ℚ) : ℝ) := by
                calc ((dot x d : ℚ) : ℝ) * ((dot x d : ℚ) : ℝ) * ((sqNorm c : ℚ) : ℝ)
                    = ((dot x d : ℚ) : ℝ) * normR c * (((dot x d : ℚ) : ℝ) * normR c) := by
                      rw [← hPsq]; ring
                  _ < ((dot x c : ℚ) : ℝ) * normR d * (((dot x c : ℚ) : ℝ) * normR d) := hsq
                  _ = ((dot x c : ℚ) : ℝ) * ((dot x c : ℚ) : ℝ) * ((sqNorm d : ℚ) : ℝ) := by
                      rw [← hQsq]; ring
              exact_mod_cast hR
          · have haR : ((dot x c : ℚ) : ℝ) ≤ 0 := by
              have h : dot x c ≤ 0 := le_of_not_lt han
              exact_mod_cast h
            rw [if_neg han]
            simp only [Bool.false_eq_true, false_iff, not_lt]
            calc ((dot x c : ℚ) : ℝ) * normR d ≤ 0 :=
                mul_nonpos_of_nonpos_of_nonneg haR (normR_nonneg d)
              _ ≤ ((dot x d : ℚ) : ℝ) * normR c := mul_nonneg hbR (normR_nonneg c)
        · have hbneg : dot x d < 0 := lt_of_not_le hbn
          have hbR : ((dot x d : ℚ) : ℝ) < 0 := by exact_mod_cast hbneg
          rw [if_neg hbn]
          by_cases han : 0 ≤ dot x c
          · have haR : (0:ℝ) ≤ ((dot x c : ℚ) : ℝ) := by exact_mod_cast han
            rw [if_pos han]
            simp only [true_iff]
            calc ((dot x d : ℚ) : ℝ) * normR c < 0 := mul_neg_of_neg_of_pos hbR hP
              _ ≤ ((dot x c : ℚ) : ℝ) * normR d := mul_nonneg haR (normR_nonneg d)
          · have haneg : dot x c < 0 := lt_of_not_le han
            have haR : ((dot x c : ℚ) : ℝ) < 0 := by exact_mod_cast haneg
            rw [if_neg han]
            simp only [decide_eq_true_eq]
            have hbP : (0:ℝ) < -(((dot x d : ℚ) : ℝ)) * normR c := by
              apply mul_pos _ hP
              linarith
            constructor
            · intro hrat
              have hR : ((dot x c : ℚ) : ℝ) * ((dot x c : ℚ) : ℝ) * ((sqNorm d : ℚ) : ℝ)
                  < ((dot x d : ℚ) : ℝ) * ((dot x d : ℚ) : ℝ) * ((sqNorm c : ℚ) : ℝ) := by
                exact_mod_cast hrat
              have hneg : -(((dot x c : ℚ) : ℝ)) * normR d
                  < -(((dot x d : ℚ) : ℝ)) * normR c := by
                apply lt_of_mul_self_lt_mul_self
                  (mul_nonneg (by linarith) (normR_nonneg d))
                  (mul_nonneg (by linarith) (normR_nonneg c))
                calc -((dot x c : ℚ) : ℝ) * normR d * (-((dot x c : ℚ) : ℝ) * normR d)
                    = ((dot x c : ℚ) : ℝ) * ((dot x c : ℚ) : ℝ) * (normR d * normR d) := by
                      ring
                  _ = ((dot x c : ℚ) : ℝ) * ((dot x c : ℚ) : ℝ) * ((sqNorm d : ℚ) : ℝ) := by
                      rw [hQsq]
                  _ < ((dot x d : ℚ) : ℝ) * ((dot x d : ℚ) : ℝ) * ((sqNorm c : ℚ) : ℝ) := hR
                  _ = -((dot x d : ℚ) : ℝ) * normR c * (-((dot x d : ℚ) : ℝ) * normR c) := by
                      rw [← hPsq]; ring
              linarith
            · intro hlt
              have hneg : -(((dot x c : ℚ) : ℝ)) * normR d
                  < -(((dot x d : ℚ) : ℝ)) * normR c := by linarith
              have hsq := mul_self_lt_mul_self_of_lt
                (mul_nonneg (by linarith : (0:ℝ) ≤ -(((dot x c : ℚ) : ℝ))) (normR_nonneg d))
                hneg
              have hR : ((dot x c : ℚ) : ℝ) * ((dot x c : ℚ) : ℝ) * ((sqNorm d : ℚ) : ℝ)
                  < ((dot x d : ℚ) : ℝ) * ((dot x d : ℚ) : ℝ) * ((sqNorm c : ℚ) : ℝ) := by
                calc ((dot x c : ℚ) : ℝ) * ((dot x c : ℚ) : ℝ) * ((sqNorm d : ℚ) : ℝ)
                    = -((dot x c : ℚ) : ℝ) * normR d * (-((dot x c : ℚ) : ℝ) * normR d) := by
                      rw [← hQsq]; ring
                  _ < -((dot x d : ℚ) : ℝ) * normR c * (-((dot x d : ℚ) : ℝ) * normR c) := hsq
                  _ = ((dot x d : ℚ) : ℝ) * ((dot x d : ℚ) : ℝ) * ((sqNorm c : ℚ) : ℝ) := by
                      rw [← hPsq]; ring
              exact_mod_cast hR

/-- Restatement of `simGtB_iff_lt` for cosine distances. -/
theorem simGtB_iff_dist_lt (x c d : Vec) :
    simGtB x c d = true ↔ cosDistR x c < cosDistR x d := by
  rw [simGtB_iff_lt]
  unfold cosDistR
  constructor <;> intro h <;> linarith

/-!
Specification of the argmin fold: the returned index is in range, attains
the minimal cosine distance, and on ties is the least such index.
-/
theorem argminAux_spec (x : Vec) :
    ∀ (rest pre : List Vec) (best : ℕ) (bestV : Vec),
      best < pre.length → pre.getD best [] = bestV →
      (∀ j, j < pre.length →
        cosDistR x bestV ≤ cosDistR x (pre.getD j []) ∧
        (cosDistR x bestV = cosDistR x (pre.getD j []) → best ≤ j)) →
      argminAux x rest pre.length bestV best < (pre ++ rest).length ∧
      ∀ j, j < (pre ++ rest).length →
        cosDistR x ((pre ++ rest).getD (argminAux x rest pre.length bestV best) []) ≤
          cosDistR x ((pre ++ rest).getD j []) ∧
        (cosDistR x ((pre ++ rest).getD (argminAux x rest pre.length bestV best) []) =
          cosDistR x ((pre ++ rest).getD j []) → argminAux x rest pre.length bestV best ≤ j) := by
  intro rest
  induction rest with
  | nil =>
    intro pre best bestV hlt hbv hinv
    simp only [argminAux, List.append_nil]
    refine ⟨hlt, fun j hj => ?_⟩
    have h := hinv j hj
    rw [← hbv] at h
    exact h
  | cons c rest ih =>
    intro pre best bestV hlt hbv hinv
    have hassoc : pre ++ c :: rest = (pre ++ [c]) ++ rest := by
      rw [List.append_assoc, List.singleton_append]
    have hlen : (pre ++ [c]).length = pre.length + 1 := by simp
    have hgc : (pre ++ [c]).getD pre.length [] = c := by
      rw [List.getD_append_right _ _ _ _ (le_refl _)]
      simp
    by_cases hgt : simGtB x c bestV
    · have hdist : cosDistR x c < cosDistR x bestV := (simGtB_iff_dist_lt x c bestV).1 hgt
      have hstep : argminAux x (c :: rest) pre.length bestV best
          = argminAux x rest (pre ++ [c]).length c pre.length := by
        simp [argminAux, hgt, hlen]
      rw [hstep, hassoc]
      apply ih (pre ++ [c]) pre.length c (by omega) hgc
      intro j hj
      rcases lt_or_eq_of_le (Nat.lt_succ_iff.1 (by simpa using hj)) with hjlt | hjeq
      · rw [List.getD_append _ _ _ _ hjlt]
        have h := hinv j hjlt
        constructor
        · exact le_of_lt (lt_of_lt_of_le hdist h.1)
        · intro heq
          exact absurd heq (ne_of_lt (lt_of_lt_of_le hdist h.1))
      · subst hjeq
        rw [hgc]
        exact ⟨le_refl _, fun _ => le_refl _⟩
    · have hdist : cosDistR x bestV ≤ cosDistR x c := by
        have h := (simGtB_iff_dist_lt x c bestV).not.1 (by simpa using hgt)
        exact le_of_not_lt h
      have hstep : argminAux x (c :: rest) pre.length bestV best
          = argminAux x rest (pre ++ [c]).length bestV best := by
        simp [argminAux, hgt, hlen]
      rw [hstep, hassoc]
      apply ih (pre ++ [c]) best bestV (by omega)
        (by rw [List.getD_append _ _ _ _ hlt]; exact hbv)
      intro j hj
      rcases lt_or_eq_of_le (Nat.lt_succ_iff.1 (by simpa using hj)) with hjlt | hjeq
      · rw [List.getD_append _ _ _ _ hjlt]
        exact hinv j hjlt
      · subst hjeq
        rw [hgc]
        exact ⟨hdist, fun _ => le_of_lt hlt⟩

theorem argminDist_spec (x : Vec) (cs : List Vec) (h : cs ≠ []) :
    argminDist x cs < cs.length ∧
    ∀ j, j < cs.length →
      cosDistR x (cs.getD (argminDist x cs) []) ≤ cosDistR x (cs.getD j []) ∧
      (cosDistR x (cs.getD (argminDist x cs) []) = cosDistR x (cs.getD j []) →
        argminDist x cs ≤ j) := by
  match cs with
  | [] => exact absurd rfl h
  | c :: rest =>
    have := argminAux_spec x rest [c] 0 c (by simp) (by simp)
      (by
        intro j hj
        have hj0 : j = 0 := by
          simp only [List.length_singleton] at hj
          omega
        subst hj0
        simp)
    simpa [argminDist] using this

theorem argminDist_lt_length (x : Vec) (cs : List Vec) (h : cs ≠ []) :
    argminDist x cs < cs.length := (argminDist_spec x cs h).1

theorem assignAll_length (X : Matrix) (cs : List Vec) :
    (assignAll X cs).length = X.length := by
  simp [assignAll]

theorem assignAll_getD (X : Matrix) (cs : List Vec) (i : ℕ) (hi : i < X.length) :
    (assignAll X cs).getD i 0 = argminDist (X.getD i []) cs := by
  unfold assignAll
  rw [List.getD_eq_getElem _ _ (by simpa using hi), List.getElem_map,
    List.getD_eq_getElem _ _ hi]

theorem assignAll_mem_lt (X : Matrix) (cs : List Vec) (h : cs ≠ []) :
    ∀ l ∈ assignAll X cs, l < cs.length := by
  intro l hl
  rcases List.mem_map.1 hl with ⟨x, _, rfl⟩
  exact argminDist_lt_length x cs h

/-!
Trace lemmas: the fuelled loop agrees with the centroid trace, and the
iteration count is bounded by the fuel with the early-stop characterised by
exact centroid equality.
-/
theorem centroidsSeq_shift (X : Matrix) (k : ℕ) (cs : List Vec) (t : ℕ) :
    centroidsSeq X k (stepCentroids X k cs) t = centroidsSeq X k cs (t + 1) := by
  induction t with
  | zero => rfl
  | succ t ih => simp only [centroidsSeq, ih]

theorem itersUsed_pos (X : Matrix) (k : ℕ) (fuel : ℕ) (cs : List Vec) :
    1 ≤ itersUsed X k (fuel + 1) cs := by
  cases fuel with
  | zero =>
    unfold itersUsed
    dsimp only
    split <;> omega
  | succ f =>
    unfold itersUsed
    dsimp only
    split
    · omega
    · omega

theorem itersUsed_le (X : Matrix) (k : ℕ) :
    ∀ (fuel : ℕ) (cs : List Vec), itersUsed X k fuel cs ≤ fuel := by
  intro fuel
  induction fuel with
  | zero => intro cs; simp [itersUsed]
  | succ fuel ih =>
    intro cs
    cases fuel with
    | zero =>
      unfold itersUsed
      dsimp only
      split <;> omega
    | succ f =>
      unfold itersUsed
      dsimp only
      split
      · omega
      · have := ih (newCentroids X (assignAll X cs) k)
        omega

theorem pcLoop_eq_assign (X : Matrix) (k : ℕ) :
    ∀ (fuel : ℕ) (cs : List Vec),
      pcLoop X k (fuel + 1) cs
        = assignAll X (centroidsSeq X k cs (itersUsed X k (fuel + 1) cs - 1)) := by
  intro fuel
  induction fuel with
  | zero =>
    intro cs
    unfold pcLoop itersUsed
    dsimp only
    split <;> rfl
  | succ fuel ih =>
    intro cs
    unfold pcLoop itersUsed
    dsimp only
    by_cases hconv : newCentroids X (assignAll X cs) k = cs
    · rw [if_pos hconv, if_pos hconv]
      rfl
    · rw [if_neg hconv, if_neg hconv]
      have hrec := ih (newCentroids X (assignAll X cs) k)
      rw [hrec]
      have hT := itersUsed_pos X k fuel (newCentroids X (assignAll X cs) k)
      have hshift := centroidsSeq_shift X k cs
        (itersUsed X k (fuel + 1) (newCentroids X (assignAll X cs) k) - 1)
      have hstep : stepCentroids X k cs = newCentroids X (assignAll X cs) k := rfl
      rw [hstep] at hshift
      have harith : itersUsed X k (fuel + 1) (newCentroids X (assignAll X cs) k) - 1 + 1
          = 1 + itersUsed X k (fuel + 1) (newCentroids X (assignAll X cs) k) - 1 := by
        omega
      rw [hshift, harith]

theorem itersUsed_conv (X : Matrix) (k : ℕ) :
    ∀ (fuel : ℕ) (cs : List Vec),
      itersUsed X k fuel cs < fuel →
      stepCentroids X k (centroidsSeq X k cs (itersUsed X k fuel cs - 1))
        = centroidsSeq X k cs (itersUsed X k fuel cs - 1) := by
  intro fuel
  induction fuel with
  | zero => intro cs h; simp [itersUsed] at h
  | succ fuel ih =>
    intro cs h
    unfold itersUsed at h ⊢
    dsimp only at h ⊢
    by_cases hconv : newCentroids X (assignAll X cs) k = cs
    · rw [if_pos hconv] at h ⊢
      show stepCentroids X k (centroidsSeq X k cs 0) = centroidsSeq X k cs 0
      exact hconv
    · rw [if_neg hconv] at h ⊢
      cases fuel with
      | zero => dsimp only at h; omega
      | succ f =>
        dsimp only at h ⊢
        have hrec := ih (newCentroids X (assignAll X cs) k) (by omega)
        have hT := itersUsed_pos X k f (newCentroids X (assignAll X cs) k)
        have hshift := centroidsSeq_shift X k cs
          (itersUsed X k (f + 1) (newCentroids X (assignAll X cs) k) - 1)
        have hstep : stepCentroids X k cs = newCentroids X (assignAll X cs) k := rfl
        rw [hstep] at hshift
        rw [hshift] at hrec
        have harith : itersUsed X k (f + 1) (newCentroids X (assignAll X cs) k) - 1 + 1
            = 1 + itersUsed X k (f + 1) (newCentroids X (assignAll X cs) k) - 1 := by
          omega
        rw [harith] at hrec
        exact hrec

theorem itersUsed_not_conv (X : Matrix) (k : ℕ) :
    ∀ (fuel : ℕ) (cs : List Vec) (t : ℕ),
      t + 1 < itersUsed X k fuel cs →
      stepCentroids X k (centroidsSeq X k cs t) ≠ centroidsSeq X k cs t := by
  intro fuel
  induction fuel with
  | zero => intro cs t h; simp [itersUsed] at h
  | succ fuel ih =>
    intro cs t h
    unfold itersUsed at h
    dsimp only at h
    by_cases hconv : newCentroids X (assignAll X cs) k = cs
    · rw [if_pos hconv] at h; omega
    · rw [if_neg hconv] at h
      cases fuel with
      | zero => dsimp only at h; omega
      | succ f =>
        dsimp only at h
        cases t with
        | zero =>
          show stepCentroids X k (centroidsSeq X k cs 0) ≠ centroidsSeq X k cs 0
          exact hconv
        | succ t =>
          have hrec := ih (newCentroids X (assignAll X cs) k) t (by omega)
          have hstep : stepCentroids X k cs = newCentroids X (assignAll X cs) k := rfl
          rw [← hstep, centroidsSeq_shift] at hrec
          exact hrec

/-!
Sizes along the pipeline: the sampler returns exactly `k` indices, the
initial centroid list and every updated centroid list have length `k`.
-/
theorem drawSample_length (g : ℕ) :
    ∀ (fuel : ℕ) (pool : List ℕ),
      (drawSample g pool fuel).length = min fuel pool.length := by
  intro fuel
  induction fuel generalizing g with
  | zero => intro pool; simp [drawSample]
  | succ fuel ih =>
    intro pool
    cases pool with
    | nil => simp [drawSample]
    | cons p ps =>
      unfold drawSample
      dsimp only
      rw [List.length_cons, ih (lcg g)]
      have hj : g % (p :: ps).length < (p :: ps).length :=
        Nat.mod_lt _ (by simp)
      have hlen := List.length_eraseIdx_add_one hj
      simp only [List.length_cons] at hlen ⊢
      omega

theorem randomChoice_length {g : RngState} {n k : ℕ} {idxs : List ℕ}
    (h : randomChoice g n k = some idxs) : idxs.length = k := by
  unfold randomChoice at h
  by_cases hkn : k ≤ n
  · rw [if_pos hkn] at h
    cases h
    rw [drawSample_length]
    simp only [List.length_range]
    omega
  · rw [if_neg hkn] at h
    cases h

theorem centroidsOf_length (X : Matrix) (idxs : List ℕ) :
    (centroidsOf X idxs).length = idxs.length := by
  simp [centroidsOf]

theorem newCentroids_length (X : Matrix) (labels : List ℕ) (k : ℕ) :
    (newCentroids X labels k).length = k := by
  simp [newCentroids]

theorem centroidsSeq_length (X : Matrix) (k : ℕ) (cs0 : List Vec)
    (h : cs0.length = k) : ∀ t, (centroidsSeq X k cs0 t).length = k := by
  intro t
  induction t with
  | zero => exact h
  | succ t _ =>
    show (stepCentroids X k (centroidsSeq X k cs0 t)).length = k
    exact newCentroids_length _ _ _

/-- Structure of a successful `perform_clustering` run: the result is the
assignment pass against the centroids of the final executed iteration. -/
theorem perform_clustering_run {gIn : RngState} {X : Matrix} {k : ℕ} {labels : List ℕ}
    (h : perform_clustering gIn X k = some labels) :
    ∃ idxs, randomChoice (npseed 42) X.length k = some idxs ∧
      (centroidsOf X idxs).length = k ∧ centroidsOf X idxs ≠ [] ∧
      labels = assignAll X (centroidsSeq X k (centroidsOf X idxs)
        (itersUsed X k 100 (centroidsOf X idxs) - 1)) := by
  unfold perform_clustering at h
  dsimp only at h
  cases hrc : randomChoice (npseed 42) X.length k with
  | none => rw [hrc] at h; cases h
  | some idxs =>
    rw [hrc] at h
    dsimp only at h
    cases hcs : centroidsOf X idxs with
    | nil => rw [hcs] at h; cases h
    | cons c cs =>
      rw [hcs] at h
      refine ⟨idxs, rfl, ?_, by rw [hcs]; simp, ?_⟩
      · rw [centroidsOf_length]
        exact randomChoice_length hrc
      · cases h
        rw [← hcs]
        exact pcLoop_eq_assign X k 99 (centroidsOf X idxs)

theorem argmaxAux_spec :
    ∀ (rest pre : List ℝ) (best : ℕ) (bestV : ℝ),
      best < pre.length → pre.getD best 0 = bestV →
      (∀ j, j < pre.length →
        pre.getD j 0 ≤ bestV ∧ (pre.getD j 0 = bestV → best ≤ j)) →
      argmaxAux rest bestV pre.length best < (pre ++ rest).length ∧
      ∀ j, j < (pre ++ rest).length →
        (pre ++ rest).getD j 0 ≤ (pre ++ rest).getD (argmaxAux rest bestV pre.length best) 0 ∧
        ((pre ++ rest).getD j 0 = (pre ++ rest).getD (argmaxAux rest bestV pre.length best) 0 →
          argmaxAux rest bestV pre.length best ≤ j) := by
  intro rest
  induction rest with
  | nil =>
    intro pre best bestV hlt hbv hinv
    simp only [argmaxAux, List.append_nil]
    refine ⟨hlt, fun j hj => ?_⟩
    have h := hinv j hj
    rw [← hbv] at h
    exact h
  | cons v rest ih =>
    intro pre best bestV hlt hbv hinv
    have hassoc : pre ++ v :: rest = (pre ++ [v]) ++ rest := by
      rw [List.append_assoc, List.singleton_append]
    have hlen : (pre ++ [v]).length = pre.length + 1 := by simp
    have hgv : (pre ++ [v]).getD pre.length 0 = v := by
      rw [List.getD_append_right _ _ _ _ (le_refl _)]
      simp
    by_cases hgt : bestV < v
    · have hstep : argmaxAux (v :: rest) bestV pre.length best
          = argmaxAux rest v (pre ++ [v]).length pre.length := by
        simp [argmaxAux, hgt, hlen]
      rw [hstep, hassoc]
      apply ih (pre ++ [v]) pre.length v (by omega) hgv
      intro j hj
      rcases lt_or_eq_of_le (Nat.lt_succ_iff.1 (by simpa using hj)) with hjlt | hjeq
      · rw [List.getD_append _ _ _ _ hjlt]
        have h := hinv j hjlt
        constructor
        · exact le_of_lt (lt_of_le_of_lt h.1 hgt)
        · intro heq
          exact absurd heq (ne_of_lt (lt_of_le_of_lt h.1 hgt))
      · subst hjeq
        rw [hgv]
        exact ⟨le_refl _, fun _ => le_refl _⟩
    · have hle : v ≤ bestV := le_of_not_lt hgt
      have hstep : argmaxAux (v :: rest) bestV pre.length best
          = argmaxAux rest bestV (pre ++ [v]).length best := by
        simp [argmaxAux, hgt, hlen]
      rw [hstep, hassoc]
      apply ih (pre ++ [v]) best bestV (by omega)
        (by rw [List.getD_append _ _ _ _ hlt]; exact hbv)
      intro j hj
      rcases lt_or_eq_of_le (Nat.lt_succ_iff.1 (by simpa using hj)) with hjlt | hjeq
      · rw [List.getD_append _ _ _ _ hjlt]
        exact hinv j hjlt
      · subst hjeq
        rw [hgv]
        exact ⟨hle, fun _ => le_of_lt hlt⟩

theorem argmaxIdx_spec (l : List ℝ) (h : l ≠ []) :
    argmaxIdx l < l.length ∧
    ∀ j, j < l.length →
      l.getD j 0 ≤ l.getD (argmaxIdx l) 0 ∧
      (l.getD j 0 = l.getD (argmaxIdx l) 0 → argmaxIdx l ≤ j) := by
  match l with
  | [] => exact absurd rfl h
  | v :: rest =>
    have := argmaxAux_spec rest [v] 0 v (by simp) (by simp)
      (by
        intro j hj
        have hj0 : j = 0 := by
          simp only [List.length_singleton] at hj
          omega
        subst hj0
        simp)
    simpa [argmaxIdx] using this

theorem focScoresAux_length (gIn : RngState) (X : Matrix) :
    ∀ (ks : List ℕ) (ss : List ℝ), focScoresAux gIn X ks = some ss →
      ss.length = ks.length := by
  intro ks
  induction ks with
  | nil => intro ss h; cases h; rfl
  | cons k ks ih =>
    intro ss h
    unfold focScoresAux at h
    cases hl : focLabels gIn X k with
    | none => rw [hl] at h; cases h
    | some labels =>
      rw [hl] at h
      dsimp only at h
      cases hs : silhouetteOpt X labels with
      | none => rw [hs] at h; cases h
      | some s =>
        rw [hs] at h
        dsimp only at h
        cases hr : focScoresAux gIn X ks with
        | none => rw [hr] at h; cases h
        | some rest =>
          rw [hr] at h
          cases h
          simp [ih rest hr]

theorem focScoresAux_mem (gIn : RngState) (X : Matrix) :
    ∀ (ks : List ℕ) (ss : List ℝ), focScoresAux gIn X ks = some ss →
      ∀ k' ∈ ks, ∃ labels s, focLabels gIn X k' = some labels ∧
        silhouetteOpt X labels = some s := by
  intro ks
  induction ks with
  | nil => intro ss _ k' hk'; cases hk'
  | cons k ks ih =>
    intro ss h k' hk'
    unfold focScoresAux at h
    cases hl : focLabels gIn X k with
    | none => rw [hl] at h; cases h
    | some labels =>
      rw [hl] at h
      dsimp only at h
      cases hs : silhouetteOpt X labels with
      | none => rw [hs] at h; cases h
      | some s =>
        rw [hs] at h
        dsimp only at h
        cases hr : focScoresAux gIn X ks with
        | none => rw [hr] at h; cases h
        | some rest =>
          rcases List.mem_cons.1 hk' with hk | hk
          · subst hk
            exact ⟨labels, s, hl, hs⟩
          · exact ih rest hr k' hk

/-!
The two copies of the refinement loop are the same function, hence the
final clustering pass reproduces exactly the labeling that won the model
selection.
-/
theorem focLoop_eq_pcLoop (X : Matrix) (k : ℕ) :
    ∀ (fuel : ℕ) (cs : List Vec), focLoop X k fuel cs = pcLoop X k fuel cs := by
  intro fuel
  induction fuel with
  | zero => intro cs; rfl
  | succ fuel ih =>
    intro cs
    unfold focLoop pcLoop
    dsimp only
    by_cases hconv : newCentroids X (assignAll X cs) k = cs
    · rw [if_pos hconv, if_pos hconv]
    · rw [if_neg hconv, if_neg hconv]
      cases fuel with
      | zero => rfl
      | succ f => exact ih _

theorem focLabels_eq_perform (gIn : RngState) (X : Matrix) (k : ℕ) :
    focLabels gIn X k = perform_clustering gIn X k := by
  unfold focLabels perform_clustering
  dsimp only
  cases randomChoice (npseed 42) X.length k with
  | none => rfl
  | some idxs =>
    dsimp only
    cases centroidsOf X idxs with
    | nil => rfl
    | cons c cs =>
      dsimp only
      rw [focLoop_eq_pcLoop]

/-!
Evaluation of the silhouette score on configurations in which all distinct
rows are at cosine distance exactly 1 from each other (pairwise orthogonal
rows): every per-row silhouette value is 0, hence so is the score.
-/
theorem cosDistR_eq_one_of_dot_zero {x y : Vec} (h : dot x y = 0) :
    cosDistR x y = 1 := by
  unfold cosDistR cosSimR
  rw [h]
  simp

theorem sum_map_one {α : Type} (l : List α) (f : α → ℝ) (h : ∀ t ∈ l, f t = 1) :
    (l.map f).sum = l.length := by
  induction l with
  | nil => simp
  | cons a l ih =>
    simp only [List.map_cons, List.sum_cons, h a (List.mem_cons_self a l), List.length_cons]
    rw [ih fun t ht => h t (List.mem_cons_of_mem a ht)]
    push_cast
    ring

theorem meanDistTo_ones (X : Matrix) (i : ℕ) (idxs : List ℕ) (hne : idxs ≠ [])
    (h : ∀ t ∈ idxs, cosDistR (X.getD i []) (X.getD t []) = 1) :
    meanDistTo X i idxs = 1 := by
  unfold meanDistTo
  rw [sum_map_one idxs _ h]
  have hpos : 0 < idxs.length := List.length_pos.2 hne
  have hne' : (idxs.length : ℝ) ≠ 0 := Nat.cast_ne_zero.2 (by omega)
  field_simp

theorem foldl_min_one : ∀ (l : List ℝ), (∀ v ∈ l, v = 1) → l.foldl min 1 = 1 := by
  intro l
  induction l with
  | nil => intro _; simp
  | cons a l ih =>
    intro h
    have ha : a = 1 := h a (by simp)
    simp only [List.foldl_cons, ha, min_self]
    exact ih fun v hv => h v (by simp [hv])

theorem minListR_ones (l : List ℝ) (hne : l ≠ []) (h : ∀ v ∈ l, v = 1) :
    minListR l = 1 := by
  match l with
  | [] => exact absurd rfl hne
  | v :: rest =>
    unfold minListR
    have hv : v = 1 := h v (by simp)
    rw [hv]
    exact foldl_min_one rest fun t ht => h t (by simp [ht])

theorem mem_clusterIdxs_iff (labels : List ℕ) (j t : ℕ) :
    t ∈ clusterIdxs labels j ↔ t < labels.length ∧ labels.getD t 0 = j := by
  simp [clusterIdxs, List.mem_filter, List.mem_range]

theorem clusterIdxs_nodup (labels : List ℕ) (j : ℕ) : (clusterIdxs labels j).Nodup :=
  (List.nodup_range _).filter _

theorem self_mem_clusterIdxs (labels : List ℕ) (i : ℕ) (hi : i < labels.length) :
    i ∈ clusterIdxs labels (labels.getD i 0) :=
  (mem_clusterIdxs_iff labels _ i).2 ⟨hi, rfl⟩

theorem clusterIdxs_of_mem_dedup (labels : List ℕ) (j : ℕ) (hj : j ∈ labels.dedup) :
    clusterIdxs labels j ≠ [] := by
  have hjl : j ∈ labels := List.mem_dedup.1 hj
  obtain ⟨n, hn, he⟩ := List.mem_iff_getElem.1 hjl
  intro hnil
  have hmem : n ∈ clusterIdxs labels j :=
    (mem_clusterIdxs_iff labels j n).2 ⟨hn, by rw [List.getD_eq_getElem _ _ hn, he]⟩
  rw [hnil] at hmem
  cases hmem

theorem length_le_one_of_all_eq {l : List ℕ} {i : ℕ} (hn : l.Nodup) (h : ∀ t ∈ l, t = i) :
    l.length ≤ 1 := by
  match l with
  | [] => simp
  | [a] => simp
  | a :: b :: rest =>
    have ha := h a (by simp)
    have hb := h b (by simp)
    rw [List.nodup_cons] at hn
    exact absurd (by rw [ha, ← hb]; exact List.mem_cons_self b rest) hn.1

/-- When all distinct rows are at pairwise cosine distance 1 and the
labeling is valid for sklearn, the silhouette score is exactly 0. -/
theorem silhouetteOpt_ortho (X : Matrix) (labels : List ℕ)
    (hdist : ∀ i t, i < labels.length → t < labels.length → i ≠ t →
      cosDistR (X.getD i []) (X.getD t []) = 1)
    (hvalid : 2 ≤ labels.dedup.length ∧ labels.dedup.length ≤ labels.length - 1) :
    silhouetteOpt X labels = some 0 := by
  unfold silhouetteOpt
  rw [if_pos hvalid]
  congr 1
  unfold silScoreR
  have hz : ∀ i ∈ List.range labels.length, silSample X labels i = 0 := by
    intro i hi
    have hi' : i < labels.length := List.mem_range.1 hi
    by_cases hone : (clusterIdxs labels (labels.getD i 0)).length = 1
    · unfold silSample
      rw [if_pos hone]
    · unfold silSample
      rw [if_neg hone]
      have hiown := self_mem_clusterIdxs labels i hi'
      have hlen1 : 1 ≤ (clusterIdxs labels (labels.getD i 0)).length :=
        List.length_pos.2 (List.ne_nil_of_mem hiown)
      have hlen2 : 2 ≤ (clusterIdxs labels (labels.getD i 0)).length := by omega
      have ha : aVal X labels i = 1 := by
        unfold aVal
        apply meanDistTo_ones
        · have hex : ∃ t ∈ clusterIdxs labels (labels.getD i 0), t ≠ i := by
            by_contra hall
            push_neg at hall
            have := length_le_one_of_all_eq (clusterIdxs_nodup labels _) hall
            omega
          obtain ⟨t, htm, hti⟩ := hex
          intro hnil
          have htf : t ∈ (clusterIdxs labels (labels.getD i 0)).filter fun t => t != i :=
            List.mem_filter.2 ⟨htm, by simpa using hti⟩
          rw [hnil] at htf
          cases htf
        · intro t ht
          have ht' := List.mem_filter.1 ht
          have htm := (mem_clusterIdxs_iff labels _ t).1 ht'.1
          have htne : t ≠ i := by simpa using ht'.2
          exact hdist i t hi' htm.1 (Ne.symm htne)
      have hb : bVal X labels i = 1 := by
        unfold bVal
        apply minListR_ones
        · have hLmem : labels.getD i 0 ∈ labels.dedup := by
            apply List.mem_dedup.2
            rw [List.getD_eq_getElem _ _ hi']
            exact List.getElem_mem _
          have hex : ∃ j ∈ labels.dedup, j ≠ labels.getD i 0 := by
            by_contra hall
            push_neg at hall
            have := length_le_one_of_all_eq labels.nodup_dedup hall
            omega
          obtain ⟨j, hjm, hjne⟩ := hex
          intro hnil
          have hjf : j ∈ labels.dedup.filter fun j => j != labels.getD i 0 :=
            List.mem_filter.2 ⟨hjm, by simpa using hjne⟩
          have hmm := List.mem_map_of_mem
            (fun j => meanDistTo X i (clusterIdxs labels j)) hjf
          rw [hnil] at hmm
          cases hmm
        · intro v hv
          obtain ⟨j, hjf, rfl⟩ := List.mem_map.1 hv
          have hj := List.mem_filter.1 hjf
          have hjne : j ≠ labels.getD i 0 := by simpa using hj.2
          apply meanDistTo_ones
          · exact clusterIdxs_of_mem_dedup labels j hj.1
          · intro t ht
            have htc := (mem_clusterIdxs_iff labels j t).1 ht
            have hti : t ≠ i := by
              intro he
              apply hjne
              rw [← htc.2, he]
            exact hdist i t hi' htc.1 (Ne.symm hti)
      rw [ha, hb]
      norm_num
  have hsum : ((List.range labels.length).map (silSample X labels)).sum = 0 := by
    apply List.sum_eq_zero
    intro x hx
    obtain ⟨i, hi, rfl⟩ := List.mem_map.1 hx
    exact hz i hi
  rw [hsum, zero_div]

/-- Evaluation scheme for one trial of the model selector: with the sampled
indices, the two-iteration convergence pattern (assign, update, reassign to
the same labels, update unchanged) determines the labeling. -/
theorem focLabels_eval (gIn : RngState) (X : Matrix) (k : ℕ) (idxs : List ℕ)
    (cs0 C : List Vec) (L : List ℕ)
    (hrc : randomChoice (npseed 42) X.length k = some idxs)
    (hcs : centroidsOf X idxs = cs0)
    (hcons : cs0 ≠ [])
    (hA1 : assignAll X cs0 = L)
    (hN : newCentroids X L k = C)
    (hne : C ≠ cs0)
    (hA2 : assignAll X C = L) :
    focLabels gIn X k = some L := by
  obtain ⟨c, cs, rfl⟩ : ∃ c cs, cs0 = c :: cs := by
    cases cs0 with
    | nil => exact absurd rfl hcons
    | cons c cs => exact ⟨c, cs, rfl⟩
  unfold focLabels
  dsimp only
  rw [hrc]
  dsimp only
  rw [hcs]
  dsimp only
  have h1 : focLoop X k 100 (c :: cs)
      = if newCentroids X (assignAll X (c :: cs)) k = c :: cs
        then assignAll X (c :: cs)
        else focLoop X k 99 (newCentroids X (assignAll X (c :: cs)) k) := rfl
  have h2 : focLoop X k 99 C
      = if newCentroids X (assignAll X C) k = C
        then assignAll X C
        else focLoop X k 98 (newCentroids X (assignAll X C) k) := rfl
  rw [h1, hA1, hN, if_neg hne, h2, hA2, hN, if_pos rfl]

/-!
Evaluation helpers for cosine distances at concrete vectors whose squared
norm is a perfect square of a rational.
-/
theorem normR_eq_of_sq {v : Vec} {r : ℚ} (h0 : 0 ≤ r) (h : sqNorm v = r * r) :
    normR v = (r : ℝ) := by
  unfold normR
  rw [h]
  push_cast
  exact Real.sqrt_mul_self (by exact_mod_cast h0)

theorem cosDistR_eval {x y : Vec} {rx ry : ℚ} (hx : 0 ≤ rx) (hy : 0 ≤ ry)
    (hsx : sqNorm x = rx * rx) (hsy : sqNorm y = ry * ry) :
    cosDistR x y = 1 - ((dot x y : ℚ) : ℝ) / ((rx : ℝ) * (ry : ℝ)) := by
  unfold cosDistR cosSimR
  rw [normR_eq_of_sq hx hsx, normR_eq_of_sq hy hsy]

set_option maxHeartbeats 1000000 in
theorem Xortho_dot_zero : ∀ i t, i < 11 → t < 11 → i ≠ t →
    dot (Xortho.getD i []) (Xortho.getD t []) = 0 := by
  intro i t hi ht hne
  interval_cases i <;> interval_cases t <;>
    first
    | omega
    | norm_num [Xortho, dot, List.getD_cons_succ, List.getD_cons_zero]

theorem Xortho_dist_one : ∀ i t, i < 11 → t < 11 → i ≠ t →
    cosDistR (Xortho.getD i []) (Xortho.getD t []) = 1 := by
  intro i t hi ht hne
  exact cosDistR_eq_one_of_dot_zero (Xortho_dot_zero i t hi ht hne)

set_option maxHeartbeats 2000000 in
theorem focLabelsOrtho2 (gIn : RngState) :
    focLabels gIn Xortho 2 = some [0,0,0,0,0,1,0,0,0,0,0] := by
  apply focLabels_eval gIn Xortho 2 [0,5]
    [[1,0,0,0,0,0,0,0,0,0,0],
     [0,0,0,0,0,1,0,0,0,0,0]]
    [[1/10,1/10,1/10,1/10,1/10,0,1/10,1/10,1/10,1/10,1/10],
     [0,0,0,0,0,1,0,0,0,0,0]]
    [0,0,0,0,0,1,0,0,0,0,0]
  · decide
  · decide
  · decide
  · norm_num [assignAll, argminDist, argminAux, simGtB, sqNorm, dot, Xortho]
  · norm_num [newCentroids, rowsWithLabel, meanVec, sumVecs, addVec, Xortho, List.range_succ,
      List.zip, List.zipWith, List.filterMap_cons]
  · norm_num [List.cons.injEq]
  · norm_num [assignAll, argminDist, argminAux, simGtB, sqNorm, dot, Xortho]

theorem silOrtho2 : silhouetteOpt Xortho [0,0,0,0,0,1,0,0,0,0,0] = some 0 := by
  apply silhouetteOpt_ortho
  · intro i t hi ht hne
    exact Xortho_dist_one i t (by simpa using hi) (by simpa using ht) hne
  · constructor <;> decide

set_option maxHeartbeats 2000000 in
theorem focLabelsOrtho3 (gIn : RngState) :
    focLabels gIn Xortho 3 = some [0,0,0,0,0,1,0,0,0,0,2] := by
  apply focLabels_eval gIn Xortho 3 [0,5,10]
    [[1,0,0,0,0,0,0,0,0,0,0],
     [0,0,0,0,0,1,0,0,0,0,0],
     [0,0,0,0,0,0,0,0,0,0,1]]
    [[1/9,1/9,1/9,1/9,1/9,0,1/9,1/9,1/9,1/9,0],
     [0,0,0,0,0,1,0,0,0,0,0],
     [0,0,0,0,0,0,0,0,0,0,1]]
    [0,0,0,0,0,1,0,0,0,0,2]
  · decide
  · decide
  · decide
  · norm_num [assignAll, argminDist, argminAux, simGtB, sqNorm, dot, Xortho]
  · norm_num [newCentroids, rowsWithLabel, meanVec, sumVecs, addVec, Xortho, List.range_succ,
      List.zip, List.zipWith, List.filterMap_cons]
  · norm_num [List.cons.injEq]
  · norm_num [assignAll, argminDist, argminAux, simGtB, sqNorm, dot, Xortho]

theorem silOrtho3 : silhouetteOpt Xortho [0,0,0,0,0,1,0,0,0,0,2] = some 0 := by
  apply silhouetteOpt_ortho
  · intro i t hi ht hne
    exact Xortho_dist_one i t (by simpa using hi) (by simpa using ht) hne
  · constructor <;> decide

set_option maxHeartbeats 2000000 in
theorem focLabelsOrtho4 (gIn : RngState) :
    focLabels gIn Xortho 4 = some [0,0,0,0,0,1,0,0,3,0,2] := by
  apply focLabels_eval gIn Xortho 4 [0,5,10,8]
    [[1,0,0,0,0,0,0,0,0,0,0],
     [0,0,0,0,0,1,0,0,0,0,0],
     [0,0,0,0,0,0,0,0,0,0,1],
     [0,0,0,0,0,0,0,0,1,0,0]]
    [[1/8,1/8,1/8,1/8,1/8,0,1/8,1/8,0,1/8,0],
     [0,0,0,0,0,1,0,0,0,0,0],
     [0,0,0,0,0,0,0,0,0,0,1],
     [0,0,0,0,0,0,0,0,1,0,0]]
    [0,0,0,0,0,1,0,0,3,0,2]
  · decide
  · decide
  · decide
  · norm_num [assignAll, argminDist, argminAux, simGtB, sqNorm, dot, Xortho]
  · norm_num [newCentroids, rowsWithLabel, meanVec, sumVecs, addVec, Xortho, List.range_succ,
      List.zip, List.zipWith, List.filterMap_cons]
  · norm_num [List.cons.injEq]
  · norm_num [assignAll, argminDist, argminAux, simGtB, sqNorm, dot, Xortho]

theorem silOrtho4 : silhouetteOpt Xortho [0,0,0,0,0,1,0,0,3,0,2] = some 0 := by
  apply silhouetteOpt_ortho
  · intro i t hi ht hne
    exact Xortho_dist_one i t (by simpa using hi) (by simpa using ht) hne
  · constructor <;> decide

set_option maxHeartbeats 2000000 in
theorem focLabelsOrtho5 (gIn : RngState) :
    focLabels gIn Xortho 5 = some [0,0,4,0,0,1,0,0,3,0,2] := by
  apply focLabels_eval gIn Xortho 5 [0,5,10,8,2]
    [[1,0,0,0,0,0,0,0,0,0,0],
     [0,0,0,0,0,1,0,0,0,0,0],
     [0,0,0,0,0,0,0,0,0,0,1],
     [0,0,0,0,0,0,0,0,1,0,0],
     [0,0,1,0,0,0,0,0,0,0,0]]
    [[1/7,1/7,0,1/7,1/7,0,1/7,1/7,0,1/7,0],
     [0,0,0,0,0,1,0,0,0,0,0],
     [0,0,0,0,0,0,0,0,0,0,1],
     [0,0,0,0,0,0,0,0,1,0,0],
     [0,0,1,0,0,0,0,0,0,0,0]]
    [0,0,4,0,0,1,0,0,3,0,2]
  · decide
  · decide
  · decide
  · norm_num [assignAll, argminDist, argminAux, simGtB, sqNorm, dot, Xortho]
  · norm_num [newCentroids, rowsWithLabel, meanVec, sumVecs, addVec, Xortho, List.range_succ,
      List.zip, List.zipWith, List.filterMap_cons]
  · norm_num [List.cons.injEq]
  · norm_num [assignAll, argminDist, argminAux, simGtB, sqNorm, dot, Xortho]

theorem silOrtho5 : silhouetteOpt Xortho [0,0,4,0,0,1,0,0,3,0,2] = some 0 := by
  apply silhouetteOpt_ortho
  · intro i t hi ht hne
    exact Xortho_dist_one i t (by simpa using hi) (by simpa using ht) hne
  · constructor <;> decide

set_option maxHeartbeats 2000000 in
theorem focLabelsOrtho6 (gIn : RngState) :
    focLabels gIn Xortho 6 = some [0,5,4,0,0,1,0,0,3,0,2] := by
  apply focLabels_eval gIn Xortho 6 [0,5,10,8,2,1]
    [[1,0,0,0,0,0,0,0,0,0,0],
     [0,0,0,0,0,1,0,0,0,0,0],
     [0,0,0,0,0,0,0,0,0,0,1],
     [0,0,0,0,0,0,0,0,1,0,0],
     [0,0,1,0,0,0,0,0,0,0,0],
     [0,1,0,0,0,0,0,0,0,0,0]]
    [[1/6,0,0,1/6,1/6,0,1/6,1/6,0,1/6,0],
     [0,0,0,0,0,1,0,0,0,0,0],
     [0,0,0,0,0,0,0,0,0,0,1],
     [0,0,0,0,0,0,0,0,1,0,0],
     [0,0,1,0,0,0,0,0,0,0,0],
     [0,1,0,0,0,0,0,0,0,0,0]]
    [0,5,4,0,0,1,0,0,3,0,2]
  · decide
  · decide
  · decide
  · norm_num [assignAll, argminDist, argminAux, simGtB, sqNorm, dot, Xortho]
  · norm_num [newCentroids, rowsWithLabel, meanVec, sumVecs, addVec, Xortho, List.range_succ,
      List.zip, List.zipWith, List.filterMap_cons]
  · norm_num [List.cons.injEq]
  · norm_num [assignAll, argminDist, argminAux, simGtB, sqNorm, dot, Xortho]

theorem silOrtho6 : silhouetteOpt Xortho [0,5,4,0,0,1,0,0,3,0,2] = some 0 := by
  apply silhouetteOpt_ortho
  · intro i t hi ht hne
    exact Xortho_dist_one i t (by simpa using hi) (by simpa using ht) hne
  · constructor <;> decide

set_option maxHeartbeats 2000000 in
theorem focLabelsOrtho7 (gIn : RngState) :
    focLabels gIn Xortho 7 = some [0,5,4,0,0,1,0,6,3,0,2] := by
  apply focLabels_eval gIn Xortho 7 [0,5,10,8,2,1,7]
    [[1,0,0,0,0,0,0,0,0,0,0],
     [0,0,0,0,0,1,0,0,0,0,0],
     [0,0,0,0,0,0,0,0,0,0,1],
     [0,0,0,0,0,0,0,0,1,0,0],
     [0,0,1,0,0,0,0,0,0,0,0],
     [0,1,0,0,0,0,0,0,0,0,0],
     [0,0,0,0,0,0,0,1,0,0,0]]
    [[1/5,0,0,1/5,1/5,0,1/5,0,0,1/5,0],
     [0,0,0,0,0,1,0,0,0,0,0],
     [0,0,0,0,0,0,0,0,0,0,1],
     [0,0,0,0,0,0,0,0,1,0,0],
     [0,0,1,0,0,0,0,0,0,0,0],
     [0,1,0,0,0,0,0,0,0,0,0],
     [0,0,0,0,0,0,0,1,0,0,0]]
    [0,5,4,0,0,1,0,6,3,0,2]
  · decide
  · decide
  · decide
  · norm_num [assignAll, argminDist, argminAux, simGtB, sqNorm, dot, Xortho]
  · norm_num [newCentroids, rowsWithLabel, meanVec, sumVecs, addVec, Xortho, List.range_succ,
      List.zip, List.zipWith, List.filterMap_cons]
  · norm_num [List.cons.injEq]
  · norm_num [assignAll, argminDist, argminAux, simGtB, sqNorm, dot, Xortho]

theorem silOrtho7 : silhouetteOpt Xortho [0,5,4,0,0,1,0,6,3,0,2] = some 0 := by
  apply silhouetteOpt_ortho
  · intro i t hi ht hne
    exact Xortho_dist_one i t (by simpa using hi) (by simpa using ht) hne
  · constructor <;> decide

set_option maxHeartbeats 2000000 in
theorem focLabelsOrtho8 (gIn : RngState) :
    focLabels gIn Xortho 8 = some [0,5,4,0,0,1,7,6,3,0,2] := by
  apply focLabels_eval gIn Xortho 8 [0,5,10,8,2,1,7,6]
    [[1,0,0,0,0,0,0,0,0,0,0],
     [0,0,0,0,0,1,0,0,0,0,0],
     [0,0,0,0,0,0,0,0,0,0,1],
     [0,0,0,0,0,0,0,0,1,0,0],
     [0,0,1,0,0,0,0,0,0,0,0],
     [0,1,0,0,0,0,0,0,0,0,0],
     [0,0,0,0,0,0,0,1,0,0,0],
     [0,0,0,0,0,0,1,0,0,0,0]]
    [[1/4,0,0,1/4,1/4,0,0,0,0,1/4,0],
     [0,0,0,0,0,1,0,0,0,0,0],
     [0,0,0,0,0,0,0,0,0,0,1],
     [0,0,0,0,0,0,0,0,1,0,0],
     [0,0,1,0,0,0,0,0,0,0,0],
     [0,1,0,0,0,0,0,0,0,0,0],
     [0,0,0,0,0,0,0,1,0,0,0],
     [0,0,0,0,0,0,1,0,0,0,0]]
    [0,5,4,0,0,1,7,6,3,0,2]
  · decide
  · decide
  · decide
  · norm_num [assignAll, argminDist, argminAux, simGtB, sqNorm, dot, Xortho]
  · norm_num [newCentroids, rowsWithLabel, meanVec, sumVecs, addVec, Xortho, List.range_succ,
      List.zip, List.zipWith, List.filterMap_cons]
  · norm_num [List.cons.injEq]
  · norm_num [assignAll, argminDist, argminAux, simGtB, sqNorm, dot, Xortho]

theorem silOrtho8 : silhouetteOpt Xortho [0,5,4,0,0,1,7,6,3,0,2] = some 0 := by
  apply silhouetteOpt_ortho
  · intro i t hi ht hne
    exact Xortho_dist_one i t (by simpa using hi) (by simpa using ht) hne
  · constructor <;> decide

set_option maxHeartbeats 2000000 in
theorem focLabelsOrtho9 (gIn : RngState) :
    focLabels gIn Xortho 9 = some [0,5,4,0,0,1,7,6,3,8,2] := by
  apply focLabels_eval gIn Xortho 9 [0,5,10,8,2,1,7,6,9]
    [[1,0,0,0,0,0,0,0,0,0,0],
     [0,0,0,0,0,1,0,0,0,0,0],
     [0,0,0,0,0,0,0,0,0,0,1],
     [0,0,0,0,0,0,0,0,1,0,0],
     [0,0,1,0,0,0,0,0,0,0,0],
     [0,1,0,0,0,0,0,0,0,0,0],
     [0,0,0,0,0,0,0,1,0,0,0],
     [0,0,0,0,0,0,1,0,0,0,0],
     [0,0,0,0,0,0,0,0,0,1,0]]
    [[1/3,0,0,1/3,1/3,0,0,0,0,0,0],
     [0,0,0,0,0,1,0,0,0,0,0],
     [0,0,0,0,0,0,0,0,0,0,1],
     [0,0,0,0,0,0,0,0,1,0,0],
     [0,0,1,0,0,0,0,0,0,0,0],
     [0,1,0,0,0,0,0,0,0,0,0],
     [0,0,0,0,0,0,0,1,0,0,0],
     [0,0,0,0,0,0,1,0,0,0,0],
     [0,0,0,0,0,0,0,0,0,1,0]]
    [0,5,4,0,0,1,7,6,3,8,2]
  · decide
  · decide
  · decide
  · norm_num [assignAll, argminDist, argminAux, simGtB, sqNorm, dot, Xortho]
  · norm_num [newCentroids, rowsWithLabel, meanVec, sumVecs, addVec, Xortho, List.range_succ,
      List.zip, List.zipWith, List.filterMap_cons]
  · norm_num [List.cons.injEq]
  · norm_num [assignAll, argminDist, argminAux, simGtB, sqNorm, dot, Xortho]

theorem silOrtho9 : silhouetteOpt Xortho [0,5,4,0,0,1,7,6,3,8,2] = some 0 := by
  apply silhouetteOpt_ortho
  · intro i t hi ht hne
    exact Xortho_dist_one i t (by simpa using hi) (by simpa using ht) hne
  · constructor <;> decide

set_option maxHeartbeats 2000000 in
theorem focLabelsOrtho10 (gIn : RngState) :
    focLabels gIn Xortho 10 = some [0,5,4,9,0,1,7,6,3,8,2] := by
  apply focLabels_eval gIn Xortho 10 [0,5,10,8,2,1,7,6,9,3]
    [[1,0,0,0,0,0,0,0,0,0,0],
     [0,0,0,0,0,1,0,0,0,0,0],
     [0,0,0,0,0,0,0,0,0,0,1],
     [0,0,0,0,0,0,0,0,1,0,0],
     [0,0,1,0,0,0,0,0,0,0,0],
     [0,1,0,0,0,0,0,0,0,0,0],
     [0,0,0,0,0,0,0,1,0,0,0],
     [0,0,0,0,0,0,1,0,0,0,0],
     [0,0,0,0,0,0,0,0,0,1,0],
     [0,0,0,1,0,0,0,0,0,0,0]]
    [[1/2,0,0,0,1/2,0,0,0,0,0,0],
     [0,0,0,0,0,1,0,0,0,0,0],
     [0,0,0,0,0,0,0,0,0,0,1],
     [0,0,0,0,0,0,0,0,1,0,0],
     [0,0,1,0,0,0,0,0,0,0,0],
     [0,1,0,0,0,0,0,0,0,0,0],
     [0,0,0,0,0,0,0,1,0,0,0],
     [0,0,0,0,0,0,1,0,0,0,0],
     [0,0,0,0,0,0,0,0,0,1,0],
     [0,0,0,1,0,0,0,0,0,0,0]]
    [0,5,4,9,0,1,7,6,3,8,2]
  · decide
  · decide
  · decide
  · norm_num [assignAll, argminDist, argminAux, simGtB, sqNorm, dot, Xortho]
  · norm_num [newCentroids, rowsWithLabel, meanVec, sumVecs, addVec, Xortho, List.range_succ,
      List.zip, List.zipWith, List.filterMap_cons]
  · norm_num [List.cons.injEq]
  · norm_num [assignAll, argminDist, argminAux, simGtB, sqNorm, dot, Xortho]

theorem silOrtho10 : silhouetteOpt Xortho [0,5,4,9,0,1,7,6,3,8,2] = some 0 := by
  apply silhouetteOpt_ortho
  · intro i t hi ht hne
    exact Xortho_dist_one i t (by simpa using hi) (by simpa using ht) hne
  · constructor <;> decide

theorem focScoresOrtho (gIn : RngState) :
    focScores gIn Xortho = some [0,0,0,0,0,0,0,0,0] := by
  unfold focScores
  rw [show List.range' 2 9 = [2,3,4,5,6,7,8,9,10] from rfl]
  simp only [focScoresAux, focLabelsOrtho2 gIn, focLabelsOrtho3 gIn, focLabelsOrtho4 gIn, focLabelsOrtho5 gIn, focLabelsOrtho6 gIn, focLabelsOrtho7 gIn, focLabelsOrtho8 gIn, focLabelsOrtho9 gIn, focLabelsOrtho10 gIn,
    silOrtho2, silOrtho3, silOrtho4, silOrtho5, silOrtho6, silOrtho7, silOrtho8, silOrtho9, silOrtho10]

theorem argmaxIdx_nine_zeros : argmaxIdx [0,0,0,0,0,0,0,0,0] = 0 := by
  simp [argmaxIdx, argmaxAux]

theorem focOrtho (gIn : RngState) : find_optimal_clusters gIn Xortho = some 2 := by
  unfold find_optimal_clusters
  rw [focScoresOrtho gIn]
  dsimp only
  rw [argmaxIdx_nine_zeros]

/-- Concrete run of `perform_clustering` on the matrix with an all-zero
first row: the clustering completes and returns a labeling. -/
theorem perform_Xdegen : perform_clustering (npseed 0) Xdegen 2 = some [0, 1, 0] := by
  rw [← focLabels_eq_perform]
  apply focLabels_eval (npseed 0) Xdegen 2 [0, 1]
    [[0, 0], [1, 0]] [[0, 1/2], [1, 0]] [0, 1, 0]
  · decide
  · decide
  · decide
  · norm_num [assignAll, argminDist, argminAux, simGtB, sqNorm, dot, Xdegen]
  · norm_num [newCentroids, rowsWithLabel, meanVec, sumVecs, addVec, Xdegen, List.range_succ,
      List.zip, List.zipWith, List.filterMap_cons]
  · norm_num [List.cons.injEq]
  · norm_num [assignAll, argminDist, argminAux, simGtB, sqNorm, dot, Xdegen]

/-!
The ten claims.
-/
/-- C1: Model selection correctness — whenever `find_optimal_clusters`
returns a k, that k lies in the candidate range [2, 10], its silhouette
score is greater than or equal to the score of every other candidate k
tried, and among candidates attaining the maximal score the smallest k is
returned. -/
theorem find_optimal_selection (gIn : RngState) (X : Matrix) (k : ℕ)
    (h : find_optimal_clusters gIn X = some k) :
    2 ≤ k ∧ k ≤ 10 ∧
    ∃ ss, focScores gIn X = some ss ∧ ss.length = 9 ∧
      ∀ k', 2 ≤ k' → k' ≤ 10 →
        ss.getD (k' - 2) 0 ≤ ss.getD (k - 2) 0 ∧
        (ss.getD (k' - 2) 0 = ss.getD (k - 2) 0 → k ≤ k') := by
  unfold find_optimal_clusters at h
  cases hsc : focScores gIn X with
  | none => rw [hsc] at h; cases h
  | some ss =>
    rw [hsc] at h
    dsimp only at h
    have hk : 2 + argmaxIdx ss = k := by
      injection h
    have hlen : ss.length = 9 := by
      have := focScoresAux_length gIn X (List.range' 2 9) ss hsc
      simpa using this
    have hne : ss ≠ [] := by
      intro h0
      rw [h0] at hlen
      cases hlen
    obtain ⟨hr, hspec⟩ := argmaxIdx_spec ss hne
    rw [hlen] at hr
    refine ⟨by omega, by omega, ss, rfl, hlen, ?_⟩
    intro k' h2 h10
    have hj : k' - 2 < ss.length := by omega
    have hthis := hspec (k' - 2) hj
    have hkr : k - 2 = argmaxIdx ss := by omega
    rw [hkr]
    refine ⟨hthis.1, fun he => ?_⟩
    have := hthis.2 he
    omega

/-- Witness for C1 on the eleven-row orthogonal matrix, where the selector
returns k = 2. -/
theorem find_optimal_selection_witness :
    2 ≤ 2 ∧ 2 ≤ 10 ∧
    ∃ ss, focScores (npseed 0) Xortho = some ss ∧ ss.length = 9 ∧
      ∀ k', 2 ≤ k' → k' ≤ 10 →
        ss.getD (k' - 2) 0 ≤ ss.getD (2 - 2) 0 ∧
        (ss.getD (k' - 2) 0 = ss.getD (2 - 2) 0 → 2 ≤ k') :=
  find_optimal_selection (npseed 0) Xortho 2 (focOrtho (npseed 0))

/-- C2: Empty-cluster safety fails in the code.  On `Xcollinear` the seeded
sampler picks rows 0 and 1 as initial centroids; they are collinear, so the
first assignment sends every row to cluster 0 and cluster 1 receives zero
rows.  The code then evaluates `X[labels == 1].mean(axis=0)`, the mean of
an empty slice, which is a row of NaNs in numpy — no retention policy or
other safeguard exists. -/
theorem empty_cluster_first_iteration :
    randomChoice (npseed 42) Xcollinear.length 2 = some [0, 1] ∧
    assignAll Xcollinear (centroidsOf Xcollinear [0, 1]) = [0, 0, 0] ∧
    rowsWithLabel Xcollinear (assignAll Xcollinear (centroidsOf Xcollinear [0, 1])) 1 = [] := by
  have hA : assignAll Xcollinear (centroidsOf Xcollinear [0, 1]) = [0, 0, 0] := by
    norm_num [assignAll, argminDist, argminAux, simGtB, sqNorm, dot, centroidsOf, Xcollinear]
  refine ⟨by decide, hA, ?_⟩
  rw [hA]
  norm_num [rowsWithLabel, Xcollinear, List.zip, List.zipWith, List.filterMap_cons]

/-- C3: Degenerate input rejection fails in the code.  `Xdegen` has an
all-zero first row, yet `perform_clustering` raises nothing: sklearn's
cosine machinery substitutes norm 1 for the zero norm and the run completes
with a full labeling. -/
theorem zero_row_accepted : perform_clustering (npseed 0) Xdegen 2 = some [0, 1, 0] :=
  perform_Xdegen

/-- C4: Determinism — the first statement of `perform_clustering` is
`np.random.seed(42)`, which overwrites the global generator state, so the
result does not depend on the generator state the caller left behind; for a
fixed matrix and cluster count any two invocations agree. -/
theorem perform_clustering_deterministic (g1 g2 : RngState) (X : Matrix) (k : ℕ) :
    perform_clustering g1 X k = perform_clustering g2 X k := rfl

/-- C5 (counterexample): on `Xmono` the sum of squared cosine distances
from each row to its assigned centroid strictly increases from the first
iteration (value 1) to the second (value 649/625): the mean update is not
the minimiser for the cosine metric, so the claimed monotonicity fails. -/
theorem sqDistSum_increases :
    randomChoice (npseed 42) Xmono.length 2 = some [3, 2] ∧
    sqDistSum Xmono (assignAll Xmono (centroidsOf Xmono [3, 2])) (centroidsOf Xmono [3, 2])
      < sqDistSum Xmono
          (assignAll Xmono (centroidsSeq Xmono 2 (centroidsOf Xmono [3, 2]) 1))
          (centroidsSeq Xmono 2 (centroidsOf Xmono [3, 2]) 1) := by
  have hcs : centroidsOf Xmono [3, 2] = [[0, 7/2], [0, -1]] := by
    norm_num [centroidsOf, Xmono]
  have hA1 : assignAll Xmono [[0, 7/2], [0, -1]] = [0, 0, 1, 0] := by
    norm_num [assignAll, argminDist, argminAux, simGtB, sqNorm, dot, Xmono]
  have hseq : centroidsSeq Xmono 2 (centroidsOf Xmono [3, 2]) 1 = [[8, 7/3], [0, -1]] := by
    show stepCentroids Xmono 2 (centroidsOf Xmono [3, 2]) = _
    unfold stepCentroids
    rw [hcs, hA1]
    norm_num [newCentroids, rowsWithLabel, meanVec, sumVecs, addVec, Xmono, List.range_succ,
      List.zip, List.zipWith, List.filterMap_cons]
  have hA2 : assignAll Xmono [[8, 7/3], [0, -1]] = [0, 0, 1, 0] := by
    norm_num [assignAll, argminDist, argminAux, simGtB, sqNorm, dot, Xmono]
  have e1 : cosDistR [24, 0] [0, 7/2] = 1 :=
    cosDistR_eq_one_of_dot_zero (by norm_num [dot])
  have e2 : cosDistR [0, 7/2] [0, 7/2] = 0 := by
    rw [cosDistR_eval (by norm_num : (0:ℚ) ≤ 7/2) (by norm_num : (0:ℚ) ≤ 7/2)
      (by norm_num [sqNorm, dot]) (by norm_num [sqNorm, dot])]
    norm_num [dot]
  have e3 : cosDistR [0, -1] [0, -1] = 0 := by
    rw [cosDistR_eval (by norm_num : (0:ℚ) ≤ 1) (by norm_num : (0:ℚ) ≤ 1)
      (by norm_num [sqNorm, dot]) (by norm_num [sqNorm, dot])]
    norm_num [dot]
  have e4 : cosDistR [24, 0] [8, 7/3] = 1/25 := by
    rw [cosDistR_eval (by norm_num : (0:ℚ) ≤ 24) (by norm_num : (0:ℚ) ≤ 25/3)
      (by norm_num [sqNorm, dot]) (by norm_num [sqNorm, dot])]
    norm_num [dot]
  have e5 : cosDistR [0, 7/2] [8, 7/3] = 18/25 := by
    rw [cosDistR_eval (by norm_num : (0:ℚ) ≤ 7/2) (by norm_num : (0:ℚ) ≤ 25/3)
      (by norm_num [sqNorm, dot]) (by norm_num [sqNorm, dot])]
    norm_num [dot]
  refine ⟨by decide, ?_⟩
  rw [hseq, hA2, hcs, hA1]
  unfold sqDistSum
  rw [show Xmono.length = 4 from rfl]
  simp only [Finset.sum_range_succ, Finset.sum_range_zero, Xmono,
    List.getD_cons_zero, List.getD_cons_succ]
  rw [e1, e2, e3, e4, e5]
  norm_num

/-- C5 (amended): within one iteration the assignment step is optimal for
the current centroids — against the fixed centroid list, the labels from
`assignAll` give a sum of squared cosine distances no larger than any other
labeling (in particular the previous iteration's); across the centroid
update the sum can grow. -/
theorem assign_sqDistSum_le (X : Matrix) (cs : List Vec) (hcs : cs ≠ [])
    (labels : List ℕ) (hlab : ∀ l ∈ labels, l < cs.length) :
    sqDistSum X (assignAll X cs) cs ≤ sqDistSum X labels cs := by
  apply Finset.sum_le_sum
  intro i hi
  have hi' : i < X.length := Finset.mem_range.1 hi
  rw [assignAll_getD X cs i hi']
  have hj : labels.getD i 0 < cs.length := by
    by_cases hil : i < labels.length
    · apply hlab
      rw [List.getD_eq_getElem _ _ hil]
      exact List.getElem_mem _
    · rw [List.getD_eq_default _ _ (le_of_not_lt hil)]
      exact List.length_pos.2 hcs
  have hopt := ((argminDist_spec (X.getD i []) cs hcs).2 _ hj).1
  exact pow_le_pow_left (cosDistR_nonneg _ _) hopt 2

/-- Witness for the amended C5 at a concrete matrix, centroid list and
alternative labeling. -/
theorem assign_sqDistSum_le_witness :
    ((centroidsOf Xmono [3, 2] ≠ []) ∧ ∀ l ∈ ([1, 1, 0, 0] : List ℕ),
      l < (centroidsOf Xmono [3, 2]).length) ∧
    sqDistSum Xmono (assignAll Xmono (centroidsOf Xmono [3, 2])) (centroidsOf Xmono [3, 2])
      ≤ sqDistSum Xmono [1, 1, 0, 0] (centroidsOf Xmono [3, 2]) :=
  ⟨⟨by decide, by decide⟩,
    assign_sqDistSum_le Xmono (centroidsOf Xmono [3, 2]) (by decide) [1, 1, 0, 0] (by decide)⟩

/-- C6: Cluster count bound — a labeling returned by `perform_clustering`
has exactly one entry per row of the matrix and every label is in [0, k). -/
theorem perform_clustering_labels_bound (gIn : RngState) (X : Matrix) (k : ℕ)
    (labels : List ℕ) (h : perform_clustering gIn X k = some labels) :
    labels.length = X.length ∧ ∀ l ∈ labels, l < k := by
  rcases perform_clustering_run h with ⟨idxs, _, hlen, hne, hlab⟩
  subst hlab
  constructor
  · exact assignAll_length _ _
  · have hkpos : 0 < k := by
      rw [← hlen]
      exact List.length_pos.2 hne
    have hk : (centroidsSeq X k (centroidsOf X idxs)
        (itersUsed X k 100 (centroidsOf X idxs) - 1)).length = k :=
      centroidsSeq_length X k _ hlen _
    have hne' : centroidsSeq X k (centroidsOf X idxs)
        (itersUsed X k 100 (centroidsOf X idxs) - 1) ≠ [] := by
      apply List.length_pos.1
      rw [hk]
      exact hkpos
    intro l hl
    have := assignAll_mem_lt X _ hne' l hl
    rwa [hk] at this

/-- Witness for C6 on the concrete run over `Xdegen` with k = 2. -/
theorem perform_clustering_labels_bound_witness :
    ([0, 1, 0] : List ℕ).length = Xdegen.length ∧ ∀ l ∈ ([0, 1, 0] : List ℕ), l < 2 :=
  perform_clustering_labels_bound (npseed 0) Xdegen 2 [0, 1, 0] perform_Xdegen

/-- C7: Bounded termination with exact-equality early stop — the loop body
runs at most 100 times; the returned labels are the assignment against the
centroids of the last executed iteration; if the loop stopped before the
cap then the centroids recomputed in that iteration were exactly equal to
the previous ones; and in every earlier iteration they were not. -/
theorem pcLoop_termination (X : Matrix) (k : ℕ) (cs0 : List Vec) :
    itersUsed X k 100 cs0 ≤ 100 ∧
    pcLoop X k 100 cs0
      = assignAll X (centroidsSeq X k cs0 (itersUsed X k 100 cs0 - 1)) ∧
    (itersUsed X k 100 cs0 < 100 →
      stepCentroids X k (centroidsSeq X k cs0 (itersUsed X k 100 cs0 - 1))
        = centroidsSeq X k cs0 (itersUsed X k 100 cs0 - 1)) ∧
    ∀ t, t + 1 < itersUsed X k 100 cs0 →
      stepCentroids X k (centroidsSeq X k cs0 t) ≠ centroidsSeq X k cs0 t :=
  ⟨itersUsed_le X k 100 cs0, pcLoop_eq_assign X k 99 cs0,
    itersUsed_conv X k 100 cs0, itersUsed_not_conv X k 100 cs0⟩

/-- Witness for C7 at a concrete matrix and initial centroid list. -/
theorem pcLoop_termination_witness :
    itersUsed Xk1 1 100 (centroidsOf Xk1 [0]) ≤ 100 ∧
    pcLoop Xk1 1 100 (centroidsOf Xk1 [0])
      = assignAll Xk1 (centroidsSeq Xk1 1 (centroidsOf Xk1 [0])
          (itersUsed Xk1 1 100 (centroidsOf Xk1 [0]) - 1)) ∧
    (itersUsed Xk1 1 100 (centroidsOf Xk1 [0]) < 100 →
      stepCentroids Xk1 1 (centroidsSeq Xk1 1 (centroidsOf Xk1 [0])
          (itersUsed Xk1 1 100 (centroidsOf Xk1 [0]) - 1))
        = centroidsSeq Xk1 1 (centroidsOf Xk1 [0])
            (itersUsed Xk1 1 100 (centroidsOf Xk1 [0]) - 1)) ∧
    ∀ t, t + 1 < itersUsed Xk1 1 100 (centroidsOf Xk1 [0]) →
      stepCentroids Xk1 1 (centroidsSeq Xk1 1 (centroidsOf Xk1 [0]) t)
        ≠ centroidsSeq Xk1 1 (centroidsOf Xk1 [0]) t :=
  pcLoop_termination Xk1 1 (centroidsOf Xk1 [0])

/-- C8: Assignment rule — in an assignment pass every row receives the
index of a centroid at minimal real cosine distance, and whenever another
centroid attains the same distance the assigned index is the smaller one. -/
theorem assignment_rule (X : Matrix) (cs : List Vec) (i : ℕ)
    (hi : i < X.length) (hcs : cs ≠ []) :
    (assignAll X cs).getD i 0 < cs.length ∧
    ∀ j, j < cs.length →
      cosDistR (X.getD i []) (cs.getD ((assignAll X cs).getD i 0) [])
        ≤ cosDistR (X.getD i []) (cs.getD j []) ∧
      (cosDistR (X.getD i []) (cs.getD ((assignAll X cs).getD i 0) [])
        = cosDistR (X.getD i []) (cs.getD j []) → (assignAll X cs).getD i 0 ≤ j) := by
  rw [assignAll_getD X cs i hi]
  exact argminDist_spec (X.getD i []) cs hcs

/-- Witness for C8 at row 1 of `Xdegen` against its initial centroids. -/
theorem assignment_rule_witness :
    (assignAll Xdegen (centroidsOf Xdegen [0, 1])).getD 1 0
        < (centroidsOf Xdegen [0, 1]).length ∧
    ∀ j, j < (centroidsOf Xdegen [0, 1]).length →
      cosDistR (Xdegen.getD 1 [])
          ((centroidsOf Xdegen [0, 1]).getD
            ((assignAll Xdegen (centroidsOf Xdegen [0, 1])).getD 1 0) [])
        ≤ cosDistR (Xdegen.getD 1 []) ((centroidsOf Xdegen [0, 1]).getD j []) ∧
      (cosDistR (Xdegen.getD 1 [])
          ((centroidsOf Xdegen [0, 1]).getD
            ((assignAll Xdegen (centroidsOf Xdegen [0, 1])).getD 1 0) [])
        = cosDistR (Xdegen.getD 1 []) ((centroidsOf Xdegen [0, 1]).getD j []) →
        (assignAll Xdegen (centroidsOf Xdegen [0, 1])).getD 1 0 ≤ j) :=
  assignment_rule Xdegen (centroidsOf Xdegen [0, 1]) 1 (by decide) (by decide)

/-- C9: Invalid cluster count rejection fails in the code.  There is no
`InvalidClusterCount` check anywhere: with k = 1 — which the contract says
must be rejected — the clustering runs to completion and returns the
all-zero labeling. -/
theorem k_one_accepted : perform_clustering (npseed 0) Xk1 1 = some [0, 0, 0] := by
  rw [← focLabels_eq_perform]
  apply focLabels_eval (npseed 0) Xk1 1 [0]
    [[1, 0]] [[2/3, 2/3]] [0, 0, 0]
  · decide
  · decide
  · decide
  · norm_num [assignAll, argminDist, argminAux, simGtB, sqNorm, dot, Xk1]
  · norm_num [newCentroids, rowsWithLabel, meanVec, sumVecs, addVec, Xk1, List.range_succ,
      List.zip, List.zipWith, List.filterMap_cons]
  · norm_num [List.cons.injEq]
  · norm_num [assignAll, argminDist, argminAux, simGtB, sqNorm, dot, Xk1]

/-- C10: Selection/partition agreement — whenever the selector returns
best_k, the final `perform_clustering` run reproduces exactly the labeling
the selector computed and scored for that k: both reseed the generator the
same way and run the same (textually duplicated) refinement loop. -/
theorem selection_partition_agreement (gIn : RngState) (X : Matrix) (k : ℕ)
    (h : find_optimal_clusters gIn X = some k) :
    ∃ labels s, focLabels gIn X k = some labels ∧ silhouetteOpt X labels = some s ∧
      perform_clustering gIn X k = some labels := by
  unfold find_optimal_clusters at h
  cases hsc : focScores gIn X with
  | none => rw [hsc] at h; cases h
  | some ss =>
    rw [hsc] at h
    dsimp only at h
    have hk : 2 + argmaxIdx ss = k := by injection h
    have hlen : ss.length = 9 := by
      have := focScoresAux_length gIn X (List.range' 2 9) ss hsc
      simpa using this
    have hne : ss ≠ [] := by
      intro h0
      rw [h0] at hlen
      cases hlen
    have hr := (argmaxIdx_spec ss hne).1
    rw [hlen] at hr
    have hkmem : k ∈ List.range' 2 9 := by
      rw [List.mem_range']
      exact ⟨argmaxIdx ss, by omega, by omega⟩
    obtain ⟨labels, s, hl, hs⟩ := focScoresAux_mem gIn X _ ss hsc k hkmem
    refine ⟨labels, s, hl, hs, ?_⟩
    rw [← focLabels_eq_perform]
    exact hl

/-- Witness for C10 on the orthogonal matrix where the selector returns 2. -/
theorem selection_partition_agreement_witness :
    ∃ labels s, focLabels (npseed 0) Xortho 2 = some labels ∧
      silhouetteOpt Xortho labels = some s ∧
      perform_clustering (npseed 0) Xortho 2 = some labels :=
  selection_partition_agreement (npseed 0) Xortho 2 (focOrtho (npseed 0))

end TopicModel
